import Mathlib

/-!
Verification development for the decision-and-navigation core of `ld57`
(`src/game-lib/src`): tile positions, the packed `Path` encoding, the
`BitGrid` occupancy grid, the breadth-first path finder, the haul-request
`NotificationSet` (task broker), and the per-agent `Brain` goal-stack
planner (`update_goals`).

All definitions are shallow embeddings of the Rust source.  Machine
integers are modelled as `Nat`/`Int` with explicit wrapping where the
source can overflow; release-profile semantics are used throughout
(`debug_assert!` is a no-op, `assert!` and slice-index violations and
`unwrap` on `None`/`Err` are panics, integer arithmetic wraps).  Panics
are modelled with `Except RtError`.  The caller-supplied linear arena is
external to this repository (the `engine` crate), so it is modelled at
element granularity: an allocation of `n` elements succeeds when `n`
units of budget remain.
-/

set_option maxRecDepth 20000

deriving instance DecidableEq for Except

namespace Ld57

/-- Runtime errors of the embedding: a Rust panic
(failed `assert!`, out-of-bounds slice index, `unwrap` failure,
capacity overflow of `ArrayVec::push`, division by zero). -/
inductive RtError where
  | panicked
  | fuelOut
  deriving Repr, DecidableEq

/-- `i16` two's-complement wrap of an integer (release-profile overflow). -/
def wrapI16 (v : Int) : Int :=
  ((v + 2 ^ 15) % 2 ^ 16 + 2 ^ 16) % 2 ^ 16 - 2 ^ 15

/-- `u64 as i16` truncating cast. -/
def u64ToI16 (n : Nat) : Int :=
  wrapI16 ((n % 2 ^ 16 : Nat) : Int)

/-- `i16 as u16` reinterpreting cast (used for hashing the position bytes). -/
def i16ToU16 (v : Int) : Nat :=
  (((v % 2 ^ 16) + 2 ^ 16) % 2 ^ 16).toNat

/-- `i16::saturating_sub` by a small constant. -/
def i16SatSub (v : Int) (d : Int) : Int :=
  max (v - d) (-(2 ^ 15))

/-- `i16::saturating_add` by a small constant. -/
def i16SatAdd (v : Int) (d : Int) : Int :=
  min (v + d) (2 ^ 15 - 1)

/-- `game_object.rs`: a signed 2D tile coordinate (`TilePosition(I16Vec2)`). -/
structure TilePosition where
  x : Int
  y : Int
  deriving Repr, DecidableEq

/-- glam `I16Vec2::manhattan_distance` via `TilePosition`'s deref:
`abs_diff` per axis, summed as wrapping `u16` addition. -/
def TilePosition.manhattan_distance (a b : TilePosition) : Nat :=
  ((a.x - b.x).natAbs + (a.y - b.y).natAbs) % 2 ^ 16

/-- `pathfinding.rs`: `enum Direction { Up, Down, Left, Right }`. -/
inductive Direction where
  | up
  | down
  | left
  | right
  deriving Repr, DecidableEq

/-- `Direction::ALL_DIRECTIONS`, in source order (Up, Down, Left, Right). -/
def Direction.ALL_DIRECTIONS : List Direction :=
  [.up, .down, .left, .right]

/-- `Direction::to_u8`. -/
def Direction.to_u8 : Direction → Nat
  | .up => 0b00
  | .down => 0b01
  | .left => 0b10
  | .right => 0b11

/-- `Direction::from_u8` (any value other than 0b00/0b01/0b10 maps to Right). -/
def Direction.from_u8 (u : Nat) : Direction :=
  if u = 0b00 then .up
  else if u = 0b01 then .down
  else if u = 0b10 then .left
  else .right

/-- `impl Neg for Direction`. -/
def Direction.neg : Direction → Direction
  | .up => .down
  | .down => .up
  | .left => .right
  | .right => .left

/-- `impl Add<Direction> for TilePosition` (wrapping `i16` adds). -/
def TilePosition.addDir (p : TilePosition) (d : Direction) : TilePosition :=
  match d with
  | .up => ⟨wrapI16 (p.x + 0), wrapI16 (p.y + -1)⟩
  | .down => ⟨wrapI16 (p.x + 0), wrapI16 (p.y + 1)⟩
  | .left => ⟨wrapI16 (p.x + -1), wrapI16 (p.y + 0)⟩
  | .right => ⟨wrapI16 (p.x + 1), wrapI16 (p.y + 0)⟩

/-- `pathfinding.rs`: `struct Path`, an `ArrayVec<u8, 56>` of step quads
(2 bits per step, 4 steps per byte) plus the number of steps occupied in
the last quad. -/
structure Path where
  step_quads : List Nat
  steps_in_last_quad : Nat
  deriving Repr, DecidableEq

/-- `Path::default()`. -/
def Path.empty : Path :=
  ⟨[], 0⟩

/-- `Path::is_empty`. -/
def Path.is_empty (p : Path) : Bool :=
  p.step_quads.isEmpty

/-- `Path::is_full`. -/
def Path.is_full (p : Path) : Bool :=
  p.steps_in_last_quad == 4 && p.step_quads.length == 56

/-- `Path::len` (`steps_in_last_quad + (quads.len() as u8).saturating_sub(1) * 4`). -/
def Path.len (p : Path) : Nat :=
  p.steps_in_last_quad + (p.step_quads.length - 1) * 4

/-- `Path::add_step`.  When the last quad is full (or the path is empty) a
new quad is pushed unless the `ArrayVec` is at capacity, in which case the
path is returned unchanged (the source returns `false`).  Otherwise the
step's 2-bit code is or-ed into the last quad. -/
def Path.add_step (p : Path) (direction : Direction) : Path :=
  if p.steps_in_last_quad % 4 = 0 then
    if p.step_quads.length = 56 then p
    else ⟨p.step_quads ++ [direction.to_u8], (p.steps_in_last_quad + 1) % 4⟩
  else
    match p.step_quads.getLast? with
    | none => p
    | some quad =>
        ⟨p.step_quads.dropLast ++ [quad ||| (direction.to_u8 <<< (p.steps_in_last_quad * 2))],
         p.steps_in_last_quad + 1⟩

/-- One quad of the `Path` iterator: the first `n` 2-bit steps of `quad`
decoded in order (`(quad >> (offset * 2)) & 0b11`). -/
def stepsOfQuad (quad : Nat) (n : Nat) : List Direction :=
  (List.range n).map fun k => Direction.from_u8 ((quad >>> (2 * k)) &&& 3)

/-- The forward step sequence of a `Path`, as yielded by `PathIterator::next`:
every quad but the last contributes 4 steps, the last contributes
`steps_in_last_quad` steps. -/
def Path.toSteps (p : Path) : List Direction :=
  (p.step_quads.dropLast.map fun q => stepsOfQuad q 4).flatten ++
    (match p.step_quads.getLast? with
     | none => []
     | some q => stepsOfQuad q p.steps_in_last_quad)

/-- A path built by a fold of `add_step` (how every source path is built). -/
def Path.fromSteps (l : List Direction) : Path :=
  l.foldl Path.add_step Path.empty

/-- `Path::reverse`: iterate the path back to front (the iterator's
`next_back` yields the forward sequence reversed) and append each step
negated. -/
def Path.reverse (p : Path) : Path :=
  Path.fromSteps (p.toSteps.reverse.map Direction.neg)

/-- Well-formedness of the packed representation; an invariant of every
path reachable from `Path::default()` through `add_step`: at most 56
quads, a nonempty path keeps 1–4 steps in its last quad and the unused
high bits of the last quad are zero. -/
def Path.WF (p : Path) : Prop :=
  p.step_quads.length ≤ 56 ∧
  (∀ q ∈ p.step_quads, q < 256) ∧
  (p.step_quads = [] → p.steps_in_last_quad = 0) ∧
  (p.step_quads ≠ [] → 1 ≤ p.steps_in_last_quad ∧ p.steps_in_last_quad ≤ 4 ∧
      p.step_quads.getLastD 0 < 2 ^ (2 * p.steps_in_last_quad))

instance (p : Path) : Decidable p.WF := by
  unfold Path.WF
  exact inferInstance

/-! ## `grid.rs`: `BitGrid` and `Grid<T>` -/

/-- `grid.rs`: `BitGrid`, a packed bitset of 128-bit words,
`stride = width.div_ceil(128)` words per row. -/
structure BitGrid where
  values : List Nat
  width : Nat
  height : Nat
  stride : Nat
  deriving Repr, DecidableEq

/-- `BitGrid::new`: allocates `stride * height` words from the arena
(budget is in elements); all bits start clear.  Returns the grid and the
remaining budget, or `none` on allocation failure. -/
def BitGrid.new (budget width height : Nat) : Option (BitGrid × Nat) :=
  let stride := (width + 127) / 128
  if stride * height ≤ budget then
    some (⟨List.replicate (stride * height) 0, width, height, stride⟩,
      budget - stride * height)
  else none

/-- `BitGrid::in_bounds`. -/
def BitGrid.in_bounds (g : BitGrid) (pos : TilePosition) : Prop :=
  0 ≤ pos.x ∧ 0 ≤ pos.y ∧ pos.x < (g.width : Int) ∧ pos.y < (g.height : Int)

instance (g : BitGrid) (pos : TilePosition) : Decidable (g.in_bounds pos) := by
  unfold BitGrid.in_bounds
  exact inferInstance

/-- `BitGrid::get`: the four `assert!`s panic when `pos` is out of
bounds; otherwise test the bit at `x % 128` of word `x / 128 + y * stride`. -/
def BitGrid.get (g : BitGrid) (pos : TilePosition) : Except RtError Bool :=
  if 0 ≤ pos.x ∧ 0 ≤ pos.y ∧ pos.x < (g.width : Int) ∧ pos.y < (g.height : Int) then
    let x := pos.x.toNat
    let word := g.values.getD (x / 128 + pos.y.toNat * g.stride) 0
    .ok (decide ((word &&& (1 <<< (x % 128))) ≠ 0))
  else .error .panicked

/-- `BitGrid::set`: the four `assert!`s panic when `pos` is out of bounds;
setting true ors the bit in.  (Setting false in the source computes
`word &= !((false as u128) << off)`, which is the identity; it is modelled
as such.) -/
def BitGrid.set (g : BitGrid) (pos : TilePosition) (new_value : Bool) :
    Except RtError BitGrid :=
  if 0 ≤ pos.x ∧ 0 ≤ pos.y ∧ pos.x < (g.width : Int) ∧ pos.y < (g.height : Int) then
    let x := pos.x.toNat
    let idx := x / 128 + pos.y.toNat * g.stride
    let word := g.values.getD idx 0
    let word' := if new_value then word ||| (1 <<< (x % 128)) else word
    .ok ⟨g.values.set idx word', g.width, g.height, g.stride⟩
  else .error .panicked

/-- `i16 as usize` cast: sign-extends, so negative coordinates become
huge indices. -/
def i16ToUsize (v : Int) : Nat :=
  (((v % 2 ^ 64) + 2 ^ 64) % 2 ^ 64).toNat

/-- `grid.rs`: `Grid<T>`, a dense `width * height` array indexed by
`x as usize + y as usize * width`. -/
structure Grid (T : Type) where
  values : List T
  width : Nat
  height : Nat
  deriving Repr, DecidableEq

/-- `Grid::new_zeroed` (budget is in elements): `width * height` values,
all equal to the zeroed value of `T`. -/
def Grid.new_zeroed (zero : T) (budget width height : Nat) : Option (Grid T × Nat) :=
  if width * height ≤ budget then
    some (⟨List.replicate (width * height) zero, width, height⟩, budget - width * height)
  else none

/-- `impl Index<TilePosition> for Grid`: flattened index with `as usize`
casts (wrapping); an index past the backing vector panics. -/
def Grid.read (g : Grid T) (pos : TilePosition) : Except RtError T :=
  let idx := (i16ToUsize pos.x + i16ToUsize pos.y * g.width) % 2 ^ 64
  match g.values.get? idx with
  | some v => .ok v
  | none => .error .panicked

/-- `impl IndexMut<TilePosition> for Grid`: write through the same index. -/
def Grid.write (g : Grid T) (pos : TilePosition) (v : T) : Except RtError (Grid T) :=
  let idx := (i16ToUsize pos.x + i16ToUsize pos.y * g.width) % 2 ^ 64
  if idx < g.values.length then
    .ok ⟨g.values.set idx v, g.width, g.height⟩
  else .error .panicked

/-! ## `pathfinding.rs`: the breadth-first path finder -/

/-- The scan at the top of the BFS loop (`pathfinding.rs:40-50`): start
from index 0 and replace the candidate whenever a strictly smaller
distance is found, yielding `(try_pos_index, try_pos, try_pos_distance)`. -/
def scanMin (dist : Grid Nat) (t0 : TilePosition) (rest : List TilePosition) :
    Except RtError (Nat × TilePosition × Nat) := do
  let d0 ← dist.read t0
  let mut best : Nat × TilePosition × Nat := (0, t0, d0)
  let mut i : Nat := 0
  for other in rest do
    i := i + 1
    let d ← dist.read other
    if d < best.2.2 then
      best := (i, other, d)
  return best

/-- `try_positions.swap(try_pos_index, last_index); truncate(last_index)`:
move the last element into slot `i` and drop the last slot. -/
def removeSwap (l : List TilePosition) (i : Nat) : List TilePosition :=
  match l.getLast? with
  | none => l
  | some last => (l.set i last).dropLast

/-- The backtracking loop of `find_path_to_any` (`pathfinding.rs:54-65`):
walk the `step_to_previous_in_path` grid from the hit cell until `from`
is reached or the path is full; return the reversed path when `from` was
reached, `none` otherwise.  The fuel is only a termination device: the
loop runs at most 225 times because every iteration adds a step to a
path capped at 224 steps. -/
def backtrack (stepBack : Grid Direction) (start : TilePosition) :
    TilePosition → Path → Nat → Except RtError (Option Path)
  | _, _, 0 => .error .panicked
  | pathEnd, path, fuel + 1 =>
    if pathEnd ≠ start ∧ path.is_full = false then do
      let dir ← stepBack.read pathEnd
      backtrack stepBack start (pathEnd.addDir dir) (path.add_step dir) fuel
    else if pathEnd = start then
      .ok (some path.reverse)
    else
      .ok none

/-- The main loop of `find_path_to_any` (`pathfinding.rs:39-89`): pick the
queued position with the smallest discovered distance; if it is in the
destination mask **and walkable**, backtrack and finish; otherwise remove
it and enqueue its unvisited walkable neighbors (skipping the direction
recorded as the step back toward the origin, which is `Up` for
never-visited cells because the direction grid is zero-initialized). -/
def bfsLoop (walls destinations : BitGrid) (start : TilePosition) :
    List TilePosition → Grid Nat → Grid Direction → Nat →
    Except RtError (Option Path)
  | _, _, _, 0 => .error .fuelOut
  | tryPositions, dist, stepBack, fuel + 1 => do
    match tryPositions with
    | [] => return none
    | t0 :: rest =>
      let (tryIdx, tryPos, tryDist) ← scanMin dist t0 rest
      let hitDest ← destinations.get tryPos
      let hit ← if hitDest then do
          let w ← walls.get tryPos
          pure (w == false)
        else pure false
      if hit then
        backtrack stepBack start tryPos Path.empty 226
      else
        let mut ps := removeSwap (t0 :: rest) tryIdx
        let mut dg := dist
        let mut sg := stepBack
        for dir in Direction.ALL_DIRECTIONS do
          let prev ← sg.read tryPos
          if prev = dir then
            continue
          let neighbor := tryPos.addDir dir
          if walls.in_bounds neighbor then
            let w ← walls.get neighbor
            let dn ← dg.read neighbor
            if w = false ∧ dn = 0 then
              ps := if ps.length = walls.width * walls.height then ps
                else ps ++ [neighbor]
              dg ← dg.write neighbor ((tryDist + 1) % 256)
              sg ← sg.write neighbor dir.neg
        bfsLoop walls destinations start ps dg sg fuel

/-- `pathfinding.rs:27-92`: `find_path_to_any` as written in
`src/game-lib/src/pathfinding.rs` (no `allow_wall_destination`
parameter).  Allocation failure of the queue or either scratch grid
yields `none` through the `?` operator.  The fuel bounds the loop
iterations of the model only; theorems supply ample fuel. -/
def find_path_to_any (start : TilePosition) (destinations walls : BitGrid)
    (budget fuel : Nat) : Except RtError (Option Path) :=
  let n := walls.width * walls.height
  if budget < n then .ok none
  else if budget - n < n then .ok none
  else if budget - n - n < n then .ok none
  else
    let dist : Grid Nat := ⟨List.replicate n 0, walls.width, walls.height⟩
    let stepBack : Grid Direction := ⟨List.replicate n .up, walls.width, walls.height⟩
    let tryPositions := if n = 0 then [] else [start]
    bfsLoop walls destinations start tryPositions dist stepBack fuel

/-- `pathfinding.rs:16-25`: `find_path_to` as written in the source:
allocate a destination mask of the walls' size (allocation failure gives
`none`), set the target bit (the `assert!`s in `BitGrid::set` panic when
`to` is out of bounds) and run `find_path_to_any`. -/
def find_path_to (start dest : TilePosition) (walls : BitGrid)
    (budget fuel : Nat) : Except RtError (Option Path) :=
  match BitGrid.new budget walls.width walls.height with
  | none => .ok none
  | some (destinations, budget') => do
    let destinations ← destinations.set dest true
    find_path_to_any start destinations walls budget' fuel

/-- Modelled from the spec: the BFS loop of the five-parameter
`find_path_to_any(from, destinations, allow_wall_destination, walls, temp_arena)`
that `brain.rs` calls (e.g. `brain.rs:237, 252, 290, 439`) and §4.2 of the
spec describes.  That version of `pathfinding.rs` is not under `src/`
(the file there has no such parameter, and would not compile against
`brain.rs`).  Per the spec, a cell is a destination hit when it is in the
mask and (`allow_wall_destination` or the cell is walkable); so that a
blocked destination can terminate the search, blocked cells that are in
the mask are visitable when the flag is set. -/
def bfsLoopSpec (allow_wall_destination : Bool) (walls destinations : BitGrid)
    (start : TilePosition) :
    List TilePosition → Grid Nat → Grid Direction → Nat →
    Except RtError (Option Path)
  | _, _, _, 0 => .error .fuelOut
  | tryPositions, dist, stepBack, fuel + 1 => do
    match tryPositions with
    | [] => return none
    | t0 :: rest =>
      let (tryIdx, tryPos, tryDist) ← scanMin dist t0 rest
      let hitDest ← destinations.get tryPos
      let hit ← if hitDest then do
          if allow_wall_destination then pure true
          else do
            let w ← walls.get tryPos
            pure (w == false)
        else pure false
      if hit then
        backtrack stepBack start tryPos Path.empty 226
      else
        let mut ps := removeSwap (t0 :: rest) tryIdx
        let mut dg := dist
        let mut sg := stepBack
        for dir in Direction.ALL_DIRECTIONS do
          let prev ← sg.read tryPos
          if prev = dir then
            continue
          let neighbor := tryPos.addDir dir
          if walls.in_bounds neighbor then
            let w ← walls.get neighbor
            let d ← destinations.get neighbor
            let dn ← dg.read neighbor
            if (w = false ∨ (allow_wall_destination = true ∧ d = true)) ∧ dn = 0 then
              ps := if ps.length = walls.width * walls.height then ps
                else ps ++ [neighbor]
              dg ← dg.write neighbor ((tryDist + 1) % 256)
              sg ← sg.write neighbor dir.neg
        bfsLoopSpec allow_wall_destination walls destinations start ps dg sg fuel

/-- Modelled from the spec: the five-parameter `find_path_to_any` called
by `brain.rs`, absent from `src/pathfinding.rs`; spec §4.2.  Scratch
layout and allocation-failure behavior as in the source file, origin out
of the destination mask's bounds returns `none` (spec §4.2). -/
def find_path_to_any_spec (start : TilePosition) (destinations : BitGrid)
    (allow_wall_destination : Bool) (walls : BitGrid)
    (budget fuel : Nat) : Except RtError (Option Path) :=
  if ¬ destinations.in_bounds start then .ok none
  else
    let n := walls.width * walls.height
    if budget < n then .ok none
    else if budget - n < n then .ok none
    else if budget - n - n < n then .ok none
    else
      let dist : Grid Nat := ⟨List.replicate n 0, walls.width, walls.height⟩
      let stepBack : Grid Direction := ⟨List.replicate n .up, walls.width, walls.height⟩
      let tryPositions := if n = 0 then [] else [start]
      bfsLoopSpec allow_wall_destination walls destinations start tryPositions dist stepBack fuel

/-- Modelled from the spec: the five-parameter `find_path_to` called by
`brain.rs` (singleton destination mask over the walls' size, then
`find_path_to_any`); spec §4.2. -/
def find_path_to_spec (start dest : TilePosition)
    (allow_wall_destination : Bool) (walls : BitGrid)
    (budget fuel : Nat) : Except RtError (Option Path) :=
  match BitGrid.new budget walls.width walls.height with
  | none => .ok none
  | some (destinations, budget') => do
    let destinations ← destinations.set dest true
    find_path_to_any_spec start destinations allow_wall_destination walls budget' fuel

/-! ## `notifications.rs`: the task broker (`NotificationSet`) -/

/-- `notifications.rs`: `NotificationSet<T>`, a fixed-capacity table of
`(id, payload)` pairs plus a monotonically increasing id counter. -/
structure NotificationSet (T : Type) where
  notifications : List (Nat × T)
  id_counter : Nat
  capacity : Nat
  deriving Repr, DecidableEq

/-- `NotificationSet::new`. -/
def NotificationSet.new (T : Type) (capacity : Nat) : NotificationSet T :=
  ⟨[], 0, capacity⟩

/-- `NotificationSet::notify`: push `(id_counter, data)`; a full table
rejects and returns the payload; on success the counter advances (a `u32`
increment, wrapping at `2 ^ 32` in release builds) and the taken id is
returned. -/
def NotificationSet.notify (s : NotificationSet T) (data : T) :
    Except T (Nat × NotificationSet T) :=
  if s.notifications.length = s.capacity then .error data
  else .ok (s.id_counter,
    ⟨s.notifications ++ [(s.id_counter, data)],
     (s.id_counter + 1) % 2 ^ 32, s.capacity⟩)

/-- `NotificationSet::check`: whether an entry with this id is present. -/
def NotificationSet.check (s : NotificationSet T) (id : Nat) : Bool :=
  s.notifications.any fun e => e.1 == id

/-- The lookup half of `NotificationSet::get_mut`: the payload of the
first entry with this id. -/
def NotificationSet.getData (s : NotificationSet T) (id : Nat) : Option T :=
  (s.notifications.find? fun e => e.1 == id).map Prod.snd

/-- The mutation half of `NotificationSet::get_mut`: apply `f` to the
payload of the first entry with this id (no-op when absent). -/
def NotificationSet.modifyData (s : NotificationSet T) (id : Nat) (f : T → T) :
    NotificationSet T :=
  match s.notifications.findIdx? (fun e => e.1 == id) with
  | none => s
  | some i =>
      match s.notifications[i]? with
      | none => s
      | some e => ⟨s.notifications.set i (e.1, f e.2), s.id_counter, s.capacity⟩

/-- `NotificationSet::remove`: find the first entry with this id, swap it
with the last entry and pop, returning the payload. -/
def NotificationSet.remove (s : NotificationSet T) (id : Nat) :
    Option (T × NotificationSet T) :=
  match s.notifications.findIdx? (fun e => e.1 == id) with
  | none => none
  | some i =>
      match s.notifications[i]? with
      | none => none
      | some e =>
          match s.notifications.getLast? with
          | none => none
          | some last =>
              some (e.2,
                ⟨((s.notifications.set i last).set (s.notifications.length - 1) e).dropLast,
                 s.id_counter, s.capacity⟩)

/-- `NotificationSet::len`. -/
def NotificationSet.len (s : NotificationSet T) : Nat :=
  s.notifications.length

/-! ## `game_object.rs`: components -/

/-- `ResourceVariant` (a `u8` newtype): `MAGMA = 1`, `ENERGY = 2`,
`OXYGEN = 3`. -/
def ResourceVariant : Type := Nat

instance : DecidableEq ResourceVariant := inferInstanceAs (DecidableEq Nat)

instance : BEq ResourceVariant := inferInstanceAs (BEq Nat)

instance : Repr ResourceVariant := inferInstanceAs (Repr Nat)

def ResourceVariant.MAGMA : ResourceVariant := (1 : Nat)

def ResourceVariant.ENERGY : ResourceVariant := (2 : Nat)

def ResourceVariant.OXYGEN : ResourceVariant := (3 : Nat)

/-- `JobStationVariant` (a `u8` newtype): `ENERGY_GENERATOR = 1`,
`OXYGEN_GENERATOR = 2`. -/
def JobStationVariant : Type := Nat

instance : DecidableEq JobStationVariant := inferInstanceAs (DecidableEq Nat)

instance : BEq JobStationVariant := inferInstanceAs (BEq Nat)

instance : Repr JobStationVariant := inferInstanceAs (Repr Nat)

def JobStationVariant.ENERGY_GENERATOR : JobStationVariant := (1 : Nat)

def JobStationVariant.OXYGEN_GENERATOR : JobStationVariant := (2 : Nat)

/-- `game_object.rs`: `JobStationDetails`. -/
structure JobStationDetails where
  resource_variant : ResourceVariant
  resource_amount : Nat
  work_amount : Nat
  output_variant : ResourceVariant
  output_amount : Nat

/-- `JobStationVariant::details`. -/
def JobStationVariant.details (v : JobStationVariant) : Option JobStationDetails :=
  if v = JobStationVariant.ENERGY_GENERATOR then
    some ⟨ResourceVariant.MAGMA, 3, 10, ResourceVariant.ENERGY, 1⟩
  else if v = JobStationVariant.OXYGEN_GENERATOR then
    some ⟨ResourceVariant.ENERGY, 1, 5, ResourceVariant.OXYGEN, 15⟩
  else none

/-- `game_object.rs`: `CharacterStatus` (all fields `u8`). -/
structure CharacterStatus where
  brain_index : Nat
  oxygen : Nat
  oxygen_depletion_amount : Nat
  morale : Nat
  morale_depletion_amount : Nat
  morale_relaxing_increment : Nat
  personality : Nat
  deriving Repr, DecidableEq

/-- `CharacterStatus::zeroed()`. -/
def CharacterStatus.zeroed : CharacterStatus :=
  ⟨0, 0, 0, 0, 0, 0, 0⟩

def CharacterStatus.MAX_OXYGEN : Nat := 24

def CharacterStatus.LOW_OXYGEN_THRESHOLD : Nat := 9

def CharacterStatus.MAX_MORALE : Nat := 24

def CharacterStatus.LOW_MORALE_THRESHOLD : Nat := 9

/-- `game_object.rs`: `Stockpile`: up to three `(variant, amount)` slots
with a per-slot reserved bit; `variant_count` slots are in use. -/
structure Stockpile where
  variant_count : Nat
  reserved : Nat
  variants : List ResourceVariant
  amounts : List Nat
  deriving Repr, DecidableEq

/-- `Stockpile::zeroed()`. -/
def Stockpile.zeroed : Stockpile :=
  ⟨0, 0, [(0 : Nat), (0 : Nat), (0 : Nat)], [0, 0, 0]⟩

/-- `Stockpile::with_resource`: append a slot unless all three are in
use. -/
def Stockpile.with_resource (s : Stockpile) (resource : ResourceVariant)
    (amount : Nat) (reserved : Bool) : Stockpile :=
  let i := s.variant_count
  if 3 ≤ i then s
  else
    ⟨s.variant_count + 1,
     s.reserved ||| ((if reserved then 1 else 0) <<< i),
     s.variants.set i resource,
     s.amounts.set i amount⟩

/-- The index of the first slot in `[..variant_count]` whose variant
matches (the slot `get_resources`/`get_resources_mut` read and write). -/
def Stockpile.firstMatch (s : Stockpile) (variant : ResourceVariant) : Option Nat :=
  ((List.range s.variant_count).find? fun i =>
    s.variants.getD i (0 : Nat) == (variant : Nat))

/-- `Stockpile::get_resources`. -/
def Stockpile.get_resources (s : Stockpile) (variant : ResourceVariant) : Option Nat :=
  (s.firstMatch variant).map fun i => s.amounts.getD i 0

/-- Writing through `Stockpile::get_resources_mut`: replace the amount of
the first matching slot (no-op when there is none). -/
def Stockpile.setFirstAmount (s : Stockpile) (variant : ResourceVariant)
    (amount : Nat) : Stockpile :=
  match s.firstMatch variant with
  | none => s
  | some i => ⟨s.variant_count, s.reserved, s.variants, s.amounts.set i amount⟩

/-- `Stockpile::has_non_reserved_resources`: the first slot in
`[..variant_count]` that matches the variant **and** is not reserved has
a positive amount (reserved matching slots are skipped, not counted). -/
def Stockpile.has_non_reserved_resources (s : Stockpile)
    (variant : ResourceVariant) : Bool :=
  match (List.range s.variant_count).find? (fun i =>
      s.variants.getD i (0 : Nat) == (variant : Nat) &&
        (s.reserved >>> i) &&& 1 == 0) with
  | none => false
  | some i => 0 < s.amounts.getD i 0

/-- `Stockpile::add_resource`: add to an existing matching slot
(saturating at 255, returning the overflow), else reuse a non-reserved
empty slot when all three are occupied, else append; a full stockpile
rejects the amount.  Returns the (possibly mutated) stockpile and
`some overflow` for the source's `Err(overflow)`. -/
def Stockpile.add_resource (s : Stockpile) (variant : ResourceVariant)
    (amount : Nat) : Stockpile × Option Nat :=
  match s.firstMatch variant with
  | some i =>
      let existing := s.amounts.getD i 0
      let capacity_left := 255 - existing
      if capacity_left < amount then
        (⟨s.variant_count, s.reserved, s.variants, s.amounts.set i 255⟩,
         some (amount - capacity_left))
      else (⟨s.variant_count, s.reserved, s.variants, s.amounts.set i (existing + amount)⟩,
        none)
  | none =>
      if s.variant_count = 3 then
        match (List.range 3).find? (fun i =>
            (s.reserved >>> i) &&& 1 == 0 && s.amounts.getD i 0 == 0) with
        | none => (s, some amount)
        | some i =>
            (⟨s.variant_count, s.reserved, s.variants.set i variant, s.amounts.set i amount⟩,
             none)
      else (s.with_resource variant amount false, none)

/-- `Stockpile::mark_reserved`: set or clear the reserved bit of every
matching slot in `[..variant_count]`. -/
def Stockpile.mark_reserved (s : Stockpile) (variant : ResourceVariant)
    (reserved : Bool) : Stockpile :=
  (List.range s.variant_count).foldl (fun acc i =>
    if acc.variants.getD i (0 : Nat) == (variant : Nat) then
      if reserved then
        ⟨acc.variant_count, acc.reserved ||| (1 <<< i), acc.variants, acc.amounts⟩
      else
        ⟨acc.variant_count, acc.reserved &&& ((2 ^ 8 - 1) ^^^ (1 <<< i)), acc.variants, acc.amounts⟩
    else acc) s

/-! ## The component store view used by `brain.rs`

The `engine` crate's `Scene`/`run_system` machinery is an excluded
external collaborator (spec §1, §6); `brain.rs` only relies on it to
iterate, in registration order (`Character`, `JobStation`, `Resource`;
`lib.rs:285-289`), the entities that carry all of a system's requested
components, and to spawn/delete entities.  That interface is modelled
directly by three component tables. -/

/-- A `Character` game object's components as used by the planner. -/
structure CharacterEnt where
  status : CharacterStatus
  position : TilePosition
  held : Stockpile
  deriving Repr, DecidableEq

/-- A `JobStation` game object's components as used by the planner
(`JobStationStatus` is inlined as variant and work counter). -/
structure JobStationEnt where
  variant : JobStationVariant
  work_invested : Nat
  position : TilePosition
  stockpile : Stockpile
  deriving Repr, DecidableEq

/-- A `Resource` game object's components as used by the planner. -/
structure ResourceEnt where
  position : TilePosition
  stockpile : Stockpile
  deriving Repr, DecidableEq

/-- The component store: the three tables, plus the `Resource` table's
capacity (2000 in `lib.rs:288`) for `Scene::spawn` failure. -/
structure Scene where
  characters : List CharacterEnt
  job_stations : List JobStationEnt
  resources : List ResourceEnt
  resource_capacity : Nat
  deriving Repr, DecidableEq

/-- `Scene::spawn` for a `Resource` game object: appends unless the
table is full; the planner ignores the failure in release builds
(`debug_assert!`). -/
def Scene.spawnResource (scene : Scene) (r : ResourceEnt) : Scene :=
  if scene.resources.length < scene.resource_capacity then
    ⟨scene.characters, scene.job_stations, scene.resources ++ [r], scene.resource_capacity⟩
  else scene

/-- The `(positions, stockpiles)` component view in registration order:
characters (their held stockpile), then job stations, then resource
piles. -/
def Scene.stockEntries (scene : Scene) : List (TilePosition × Stockpile) :=
  scene.characters.map (fun c => (c.position, c.held)) ++
  scene.job_stations.map (fun j => (j.position, j.stockpile)) ++
  scene.resources.map (fun r => (r.position, r.stockpile))

/-- Write a full list of stockpiles (as long as `stockEntries`) back into
the three tables. -/
def Scene.withStockEntries (scene : Scene) (l : List Stockpile) : Scene :=
  let nc := scene.characters.length
  let nj := scene.job_stations.length
  ⟨(scene.characters.zip (l.take nc)).map (fun e => ⟨e.1.status, e.1.position, e.2⟩),
   (scene.job_stations.zip ((l.drop nc).take nj)).map
     (fun e => ⟨e.1.variant, e.1.work_invested, e.1.position, e.2⟩),
   (scene.resources.zip (l.drop (nc + nj))).map (fun e => ⟨e.1.position, e.2⟩),
   scene.resource_capacity⟩

/-! ## `brain.rs`: goals and the planner -/

/-- `brain.rs`: `MAX_GOALS`. -/
def MAX_GOALS : Nat := 8

/-- `brain.rs`: `HaulDescription`. -/
structure HaulDescription where
  resource : ResourceVariant
  amount : Nat
  destination : JobStationVariant × TilePosition
  deriving Repr, DecidableEq

/-- `brain.rs`: `enum Goal`. -/
inductive Goal where
  | work (haul_wait_timeout : Option (Nat × Nat)) (job : JobStationVariant)
  | haul (description : HaulDescription)
  | followPath (from_ : TilePosition) (path : Path)
  | relax (relax_start_tick : Nat) (walk_aabb : TilePosition × TilePosition)
  | refillOxygen
  deriving Repr, DecidableEq

/-- `brain.rs`: `enum Occupation`. -/
inductive Occupation where
  | idle
  | hauler
  | operator (job : JobStationVariant)
  deriving Repr, DecidableEq

/-- `brain.rs`: `struct Brain`.  The goal stack is an
`ArrayVec<Goal, MAX_GOALS>` whose top is the last element. -/
structure Brain where
  goal_stack : List Goal
  job : Occupation
  max_haul_amount : Nat
  wait_ticks : Nat
  ticks_without_goal : Nat
  has_relaxed : Bool
  deriving Repr, DecidableEq

/-- `Brain::new()`. -/
def Brain.new : Brain :=
  ⟨[], .idle, 2, 30, 0, false⟩

/-- `ArrayVec::push` on the goal stack: panics at capacity (the call
sites in goal seeding and the oxygen interrupt use plain `push`). -/
def pushGoalPanic (stack : List Goal) (g : Goal) : Except RtError (List Goal) :=
  if stack.length = MAX_GOALS then .error .panicked else .ok (stack ++ [g])

/-- `brain.rs:770-772`: `try_push` of the new instrumental goal; on
overflow the whole stack is cleared ("reconsider everything"). -/
def pushGoalOrClear (stack : List Goal) (g : Goal) : List Goal :=
  if stack.length = MAX_GOALS then [] else stack ++ [g]

/-- The little-endian bytes of a `u16`. -/
def leBytes2 (n : Nat) : List Nat :=
  [n % 256, (n / 256) % 256]

/-- The little-endian bytes of a `u64`. -/
def leBytes8 (n : Nat) : List Nat :=
  (List.range 8).map fun i => (n / 256 ^ i) % 256

/-- `brain.rs:168-177`: the 13 hashed bytes — brain index, the two
position coordinates as little-endian `i16`s, the tick as a
little-endian `u64`. -/
def hashedBytesOf (current_brain_index : Nat) (current_position : TilePosition)
    (current_tick : Nat) : List Nat :=
  [current_brain_index % 256] ++ leBytes2 (i16ToU16 current_position.x) ++
    leBytes2 (i16ToU16 current_position.y) ++ leBytes8 (current_tick % 2 ^ 64)

/-- Modelled from the spec: `seahash::hash`, the "fast non-cryptographic
hash" (spec §4.4, §9) from the external `seahash` crate, which is not
part of this repository.  A concrete deterministic 64-bit mixer stands
in; no claim in this development depends on particular hash values, only
on the hash being a pure function of its input bytes. -/
def seahash (bytes : List Nat) : Nat :=
  bytes.foldl (fun h b => ((h ^^^ b) * 0x6eed0e9da4d94a4f) % 2 ^ 64) 0x16f11fe89b0d677c

/-- `brain.rs:180-188`: the first `CharacterStatus` whose `brain_index`
matches, `CharacterStatus::zeroed()` if none does. -/
def findStatus (scene : Scene) (current_brain_index : Nat) : CharacterStatus :=
  match scene.characters.find? (fun c => c.status.brain_index == current_brain_index) with
  | some c => c.status
  | none => CharacterStatus.zeroed

/-- Element cost of one `BitGrid::new` over the walls' size. -/
def bitGridAllocSize (walls : BitGrid) : Nat :=
  ((walls.width + 127) / 128) * walls.height

/-- Element cost of the three scratch allocations of `find_path_to_any`. -/
def pathAnyAllocSize (walls : BitGrid) : Nat :=
  3 * (walls.width * walls.height)

/-- Element cost of `find_path_to` (destination mask plus the BFS
scratch). -/
def pathToAllocSize (walls : BitGrid) : Nat :=
  bitGridAllocSize walls + pathAnyAllocSize walls

/-- The BFS loop fuel supplied by the planner model; ample for any
search on the given grid (the fuel is a device of the model, not of the
source). -/
def bfsFuel (walls : BitGrid) : Nat :=
  walls.width * walls.height * 4 + 8

/-- `brain.rs:777-798`: `find_non_reserved_resources` — a destination
mask (allocation failure returns `none` after a `debug_assert`) with a
bit set at every `(position, stockpile)` entity holding a non-reserved
amount of the resource.  `BitGrid::set` panics for an out-of-bounds
entity position. -/
def find_non_reserved_resources (scene : Scene) (resource : ResourceVariant)
    (walls : BitGrid) (budget : Nat) : Except RtError (Option BitGrid) := do
  match BitGrid.new budget walls.width walls.height with
  | none => return none
  | some (destinations, _) =>
      let mut g := destinations
      for e in scene.stockEntries do
        if e.2.has_non_reserved_resources resource then
          g ← g.set e.1 true
      return (some g)

/-- The accept block of the Hauler goal seeding (`brain.rs:257-271`):
a request larger than the agent's per-trip cap is split — its broker
entry keeps the remainder while a `Haul` goal for the capped amount is
pushed; otherwise the whole entry is removed from the broker and pushed
as the `Haul` goal.  The push is `ArrayVec::push` (panics at capacity). -/
def acceptHaul (broker : NotificationSet HaulDescription) (stack : List Goal)
    (max_haul_amount : Nat) (notif_id : Nat) (description : HaulDescription) :
    Except RtError (NotificationSet HaulDescription × List Goal) := do
  if max_haul_amount < description.amount then
    let broker' := broker.modifyData notif_id fun d =>
      ⟨d.resource, d.amount - max_haul_amount, d.destination⟩
    let stack' ← pushGoalPanic stack (.haul
      ⟨description.resource, max_haul_amount, description.destination⟩)
    return (broker', stack')
  else
    match broker.remove notif_id with
    | some (description, broker') => do
        let stack' ← pushGoalPanic stack (.haul description)
        return (broker', stack')
    | none => throw .panicked

/-- Sorting of `hauls_by_distance` by `Reverse(dist)` (descending).  The
source's `sort_unstable_by_key` fixes no order among equal keys; the
model uses a stable insertion sort. -/
def sortByDistDesc (l : List (Nat × Nat)) : List (Nat × Nat) :=
  l.foldl (fun acc x => insertDesc x acc) []
where
  insertDesc (x : Nat × Nat) : List (Nat × Nat) → List (Nat × Nat)
    | [] => [x]
    | y :: ys => if y.2 < x.2 then x :: y :: ys else y :: insertDesc x ys

/-- The `while let Some(..) = hauls_by_distance.pop()` loop of the Hauler
seeding (`brain.rs:231-273`), processing candidate ids nearest-first:
skip entries no longer on the broker; probe that the destination is
reachable and that some non-reserved unit of the resource is reachable
(each probe against a freshly reset scratch arena of `candBudget`
elements); accept every candidate that passes both probes.  There is no
`break` after an accept, so the loop keeps claiming further candidates. -/
def seedCandidate (current_position : TilePosition) (scene : Scene)
    (walls : BitGrid) (max_haul_amount : Nat) (candBudget : Nat)
    (notif_id : Nat) (broker : NotificationSet HaulDescription)
    (stack : List Goal) :
    Except RtError (NotificationSet HaulDescription × List Goal) := do
  match broker.getData notif_id with
  | none => return (broker, stack)
  | some description => do
      let dst := description.destination
      let path_to_dest ← find_path_to_spec current_position dst.2 true walls
        candBudget (bfsFuel walls)
      if path_to_dest.isNone then return (broker, stack)
      let dsts ← find_non_reserved_resources scene description.resource walls
        (candBudget - pathToAllocSize walls)
      match dsts with
      | none => return (broker, stack)
      | some dsts => do
          let path_to_resource ← find_path_to_any_spec current_position dsts true walls
            (candBudget - pathToAllocSize walls - bitGridAllocSize walls) (bfsFuel walls)
          if path_to_resource.isNone then return (broker, stack)
          acceptHaul broker stack max_haul_amount notif_id description

/-- The `while let Some(..) = hauls_by_distance.pop()` driver over the
candidate ids in pop order (see `seedCandidate` for the loop body). -/
def haulerSeedLoop (current_position : TilePosition) (scene : Scene)
    (walls : BitGrid) (max_haul_amount : Nat) (candBudget : Nat) :
    List Nat → NotificationSet HaulDescription → List Goal →
    Except RtError (NotificationSet HaulDescription × List Goal)
  | [], broker, stack => .ok (broker, stack)
  | notif_id :: restIds, broker, stack => do
      let r ← seedCandidate current_position scene walls max_haul_amount candBudget
        notif_id broker stack
      haulerSeedLoop current_position scene walls max_haul_amount candBudget
        restIds r.1 r.2

/-- The Hauler arm of goal seeding (`brain.rs:212-274`): rank the broker
entries by Manhattan distance from the entry's destination to the agent,
sorted descending and popped from the back (hence processed
nearest-first), then run the acceptance loop.  If the ranking list
cannot be allocated the whole `update_goals` call returns early (the
`Bool` in the result). -/
def haulerSeed (current_position : TilePosition) (scene : Scene)
    (walls : BitGrid) (max_haul_amount : Nat) (budget : Nat)
    (broker : NotificationSet HaulDescription) (stack : List Goal) :
    Except RtError (NotificationSet HaulDescription × List Goal × Bool) := do
  if budget < broker.len then
    return (broker, stack, true)
  else
    let hauls_by_distance := broker.notifications.map fun e =>
      (e.1, e.2.destination.2.manhattan_distance current_position)
    let candBudget := budget - broker.len
    let ids := ((sortByDistDesc hauls_by_distance).reverse).map Prod.fst
    let (broker', stack') ← haulerSeedLoop current_position scene walls
      max_haul_amount candBudget ids broker stack
    return (broker', stack', false)

/-- The outcome of executing the top-of-stack goal once
(`brain.rs:324-755`): the possibly mutated top goal (`Work` rewrites its
wait timer, `FollowPath` its anchor and path, in place through the
`&mut` borrow), at most one of finished / not-achievable / a new
instrumental goal, the mutated scene and broker, whether `has_relaxed`
was set, and whether the call returned early (the Work arm's
out-of-memory `return`). -/
structure ExecOut where
  topGoal : Goal
  instrumental : Option Goal
  not_acheivable : Bool
  finished : Bool
  scene : Scene
  broker : NotificationSet HaulDescription
  has_relaxed_set : Bool
  early_return : Bool
  deriving Repr, DecidableEq

/-- An `ExecOut` with no resolution and nothing changed. -/
def ExecOut.base (goal : Goal) (scene : Scene)
    (broker : NotificationSet HaulDescription) : ExecOut :=
  ⟨goal, none, false, false, scene, broker, false, false⟩

/-- The adjacency system of the Work arm (`brain.rs:347-393`): scan the
job stations for the first one matching the goal's job within Manhattan
distance 2; when found, either clear a pending wait (station already has
enough input resource) or, when no wait is pending, broker a haul
request for the station's input and arm the wait timer (a full broker
rejects; release builds ignore it). -/
def workAdjacency (job : JobStationVariant) (current_position : TilePosition)
    (wait_ticks : Nat) :
    List JobStationEnt → Option (Nat × Nat) → NotificationSet HaulDescription →
    Bool × Option (Nat × Nat) × NotificationSet HaulDescription
  | [], timeout, broker => (false, timeout, broker)
  | st :: rest, timeout, broker =>
    if st.variant = job ∧ st.position.manhattan_distance current_position < 2 then
      match st.variant.details with
      | some details =>
          let current_amount := (st.stockpile.get_resources details.resource_variant).getD 0
          if details.resource_amount ≤ current_amount then
            (true, none, broker)
          else if timeout = none then
            match broker.notify ⟨details.resource_variant, details.resource_amount,
                (st.variant, st.position)⟩ with
            | .ok r => (true, some (r.1, wait_ticks), r.2)
            | .error _ => (true, timeout, broker)
          else (true, timeout, broker)
      | none => (true, timeout, broker)
    else workAdjacency job current_position wait_ticks rest timeout broker

/-- `brain.rs:425-434`: mark every job station of the goal's kind in the
destination mask (`BitGrid::set` panics for an out-of-bounds station). -/
def markJobStations (job : JobStationVariant) (stations : List JobStationEnt)
    (destinations : BitGrid) : Except RtError BitGrid := do
  let mut g := destinations
  for st in stations do
    if st.variant = job then
      g ← g.set st.position true
  return g

/-- The `Goal::Work` arm (`brain.rs:332-449`). -/
def execWork (demoralized : Bool) (brain_job : Occupation)
    (current_position : TilePosition) (wait_ticks : Nat)
    (haul_wait_timeout : Option (Nat × Nat)) (job : JobStationVariant)
    (scene : Scene) (broker : NotificationSet HaulDescription)
    (walls : BitGrid) (budget : Nat) : Except RtError ExecOut := do
  let mut gna := demoralized
  let gf : Bool :=
    match brain_job with
    | .operator job_ => !(job == job_)
    | _ => true
  let (within_working_distance, timeout1, broker1) :=
    workAdjacency job current_position wait_ticks scene.job_stations
      haul_wait_timeout broker
  let mut timeout2 : Option (Nat × Nat) := none
  let mut instr : Option Goal := none
  let mut broker2 := broker1
  match timeout1 with
  | none => pure ()
  | some (haul_id, ticks_left) =>
      let haul_still_waiting := broker1.check haul_id
      if ticks_left = 0 then
        if haul_still_waiting then
          match broker1.remove haul_id with
          | some (description, broker') => do
              instr := some (.haul description)
              broker2 := broker'
          | none => throw .panicked
      else
        timeout2 := some (haul_id, ticks_left - 1)
  if within_working_distance = false then
    match BitGrid.new budget walls.width walls.height with
    | none =>
        return ⟨.work timeout2 job, instr, gna, gf, scene, broker2, false, true⟩
    | some (destinations, budget') => do
        let destinations ← markJobStations job scene.job_stations destinations
        let p ← find_path_to_any_spec current_position destinations true walls
          budget' (bfsFuel walls)
        match p with
        | some path => instr := some (.followPath current_position path)
        | none => gna := true
  return ⟨.work timeout2 job, instr, gna, gf, scene, broker2, false, false⟩

/-- The pickup system of the Haul arm (`brain.rs:460-480`): walk the
`(position, stockpile)` entities; from each within Manhattan distance 2
holding a non-reserved amount of the resource, take
`min(requested - picked_up_so_far, slot amount)` out of the first
matching slot; stop as soon as the requested amount is reached. -/
def haulPickupLoop (current_position : TilePosition) (resource : ResourceVariant)
    (requested_amount : Nat) :
    List (TilePosition × Stockpile) → Nat → List Stockpile × Nat
  | [], thusFar => ([], thusFar)
  | (pos, sp) :: rest, thusFar =>
    let r : Stockpile × Nat :=
      if pos.manhattan_distance current_position < 2 ∧
          sp.has_non_reserved_resources resource = true then
        let stockpile_amount := (sp.get_resources resource).getD 0
        let picked_up := min (requested_amount - thusFar) stockpile_amount
        (sp.setFirstAmount resource (stockpile_amount - picked_up), thusFar + picked_up)
      else (sp, thusFar)
    if requested_amount ≤ r.2 then (r.1 :: rest.map Prod.snd, r.2)
    else
      let rec' := haulPickupLoop current_position resource requested_amount rest r.2
      (r.1 :: rec'.1, rec'.2)

/-- The pocket system of the Haul arm (`brain.rs:485-508`): find the
agent's own stockpile; move as much of the picked-up amount as fits
under the requested amount into it (`add_resource(..).unwrap()` panics
on overflow), mark it reserved, and report whether the requested amount
is now held.  Returns the characters, the left-over picked-up amount,
`current_amount` and `resources_acquired`. -/
def pocketLoop (current_brain_index : Nat) (resource : ResourceVariant)
    (requested_amount : Nat) :
    List CharacterEnt → Nat →
    Except RtError (List CharacterEnt × Nat × Nat × Bool)
  | [], thusFar => .ok ([], thusFar, 0, false)
  | c :: rest, thusFar =>
    if c.status.brain_index = current_brain_index then do
      let current_amount := (c.held.get_resources resource).getD 0
      let mut held := c.held
      let mut thusFar' := thusFar
      let mut current' := current_amount
      if 0 < thusFar ∧ current_amount < requested_amount then
        let pocketed := min thusFar (requested_amount - current_amount)
        let (held1, overflow) := c.held.add_resource resource pocketed
        if overflow.isSome then throw .panicked
        held := held1.mark_reserved resource true
        thusFar' := thusFar - pocketed
        current' := current_amount + pocketed
      let acquired := requested_amount ≤ current'
      return (⟨c.status, c.position, held⟩ :: rest, thusFar', current', acquired)
    else do
      let r ← pocketLoop current_brain_index resource requested_amount rest thusFar
      return (c :: r.1, r.2)

/-- The drop-off station system (`brain.rs:581-603`): the first station
matching the destination kind **and** position takes the carried amount
into its stockpile (overflow truncated) and the goal is finished. -/
def dropoffStation (resource : ResourceVariant) (current_amount : Nat)
    (dst_job : JobStationVariant) (dst_pos : TilePosition) :
    List JobStationEnt → List JobStationEnt × Nat × Bool
  | [] => ([], 0, false)
  | st :: rest =>
    if st.variant = dst_job ∧ st.position = dst_pos then
      let (sp', overflow) := st.stockpile.add_resource resource current_amount
      (⟨st.variant, st.work_invested, st.position, sp'⟩ :: rest,
       current_amount - overflow.getD 0, true)
    else
      let r := dropoffStation resource current_amount dst_job dst_pos rest
      (st :: r.1, r.2)

/-- The drop-off self system (`brain.rs:608-623`): remove the delivered
amount plus the leftover from the agent's own stockpile (leaving zero)
and clear the reserved mark.  Returns the characters and the leftover. -/
def dropoffSelf (current_brain_index : Nat) (resource : ResourceVariant)
    (dropped_off : Nat) :
    List CharacterEnt → List CharacterEnt × Nat
  | [] => ([], 0)
  | c :: rest =>
    if c.status.brain_index = current_brain_index then
      match c.held.get_resources resource with
      | some hauled_res =>
          let left_over := hauled_res - dropped_off
          let held' := ((c.held.setFirstAmount resource
            (hauled_res - dropped_off - left_over)).mark_reserved resource false)
          (⟨c.status, c.position, held'⟩ :: rest, left_over)
      | none => (c :: rest, 0)
    else
      let r := dropoffSelf current_brain_index resource dropped_off rest
      (c :: r.1, r.2)

/-- The `Goal::Haul` arm (`brain.rs:451-647`). -/
def execHaul (current_brain_index : Nat) (current_position : TilePosition)
    (description : HaulDescription) (scene : Scene)
    (broker : NotificationSet HaulDescription) (walls : BitGrid)
    (budget : Nat) : Except RtError ExecOut := do
  let resource := description.resource
  let requested_amount := description.amount
  let destination := description.destination
  let (stocks1, picked_up1) := haulPickupLoop current_position resource
    requested_amount scene.stockEntries 0
  let scene1 := scene.withStockEntries stocks1
  let (chars2, picked_up2, current_amount, acquired0) ←
    pocketLoop current_brain_index resource requested_amount scene1.characters picked_up1
  let scene2 : Scene :=
    ⟨chars2, scene1.job_stations, scene1.resources, scene1.resource_capacity⟩
  let scene3 :=
    if 0 < picked_up2 then
      scene2.spawnResource ⟨current_position,
        Stockpile.zeroed.with_resource resource picked_up2 false⟩
    else scene2
  let mut resources_acquired := acquired0
  let mut gna := false
  let mut finished := false
  let mut instr : Option Goal := none
  let mut rem := budget
  if resources_acquired = false then
    let dsts ← find_non_reserved_resources scene3 resource walls rem
    let p ← (match dsts with
      | some d => find_path_to_any_spec current_position d true walls (rem - bitGridAllocSize walls) (bfsFuel walls)
      | none => pure none)
    rem := rem - bitGridAllocSize walls - pathAnyAllocSize walls
    match p with
    | some path => instr := some (.followPath current_position path)
    | none =>
        if 0 < current_amount then
          resources_acquired := true
        else
          gna := true
  let mut drop_off := false
  if resources_acquired then
    let p ← find_path_to_spec current_position destination.2 true walls rem (bfsFuel walls)
    match p with
    | some path =>
        if path.is_empty then do
          drop_off := true
          finished := true
        else
          instr := some (.followPath current_position path)
    | none => pure ()
  let mut scene4 := scene3
  if drop_off then
    let (stations', dropped_off, hit) := dropoffStation resource current_amount
      destination.1 destination.2 scene3.job_stations
    finished := finished || hit
    let (chars', left_over) := dropoffSelf current_brain_index resource dropped_off
      scene3.characters
    scene4 := ⟨chars', stations', scene3.resources, scene3.resource_capacity⟩
    if 0 < left_over then
      scene4 := scene4.spawnResource ⟨current_position,
        Stockpile.zeroed.with_resource resource left_over false⟩
    if finished = false then
      gna := true
  return ⟨.haul description, instr, gna, finished, scene4, broker, false, false⟩

/-- The progress scan of the FollowPath arm (`brain.rs:654-661`): walk
the path from the anchor; return the final destination and the largest
step index whose cell equals the agent's actual position. -/
def followScan (current : TilePosition) :
    TilePosition → Nat → List Direction → TilePosition × Option Nat
  | dest, _, [] => (dest, none)
  | dest, i, step :: rest =>
    let d := dest.addDir step
    let r := followScan current d (i + 1) rest
    (r.1, if r.2.isSome then r.2 else if d = current then some (i + 1) else none)

/-- The `Goal::FollowPath` arm (`brain.rs:649-685`). -/
def execFollowPath (current_position : TilePosition) (from_ : TilePosition)
    (path : Path) (scene : Scene) (broker : NotificationSet HaulDescription)
    (walls : BitGrid) (budget : Nat) : Except RtError ExecOut := do
  if path.is_empty then
    return ⟨.followPath from_ path, none, false, true, scene, broker, false, false⟩
  else if current_position ≠ from_ then
    let steps := path.toSteps
    let (destination, steps_progressed) := followScan current_position from_ 0 steps
    match steps_progressed with
    | some k =>
        let truncated_path := Path.fromSteps (steps.drop k)
        return ⟨.followPath current_position truncated_path, none, false, false,
          scene, broker, false, false⟩
    | none =>
        let p ← find_path_to_spec current_position destination true walls budget
          (bfsFuel walls)
        match p with
        | some new_path =>
            return ⟨.followPath current_position new_path, none, false, false,
              scene, broker, false, false⟩
        | none =>
            return ⟨.followPath from_ path, none, true, false, scene, broker,
              false, false⟩
  else
    return ⟨.followPath from_ path, none, false, false, scene, broker, false, false⟩

/-- `brain.rs:700-702`: the Relax walk target — the pseudo-random offset
`rand >> 32` reduced modulo each side length of the stored bounding box,
cast to `i16`.  The box's minimum corner is never added, so the target
is anchored at the origin, not at the box. -/
def relaxWalkTarget (rand : Nat) (walk_aabb : TilePosition × TilePosition) :
    TilePosition :=
  let x := (rand >>> 32) % (walk_aabb.1.x - walk_aabb.2.x).natAbs
  let y := (rand >>> 32) % (walk_aabb.1.y - walk_aabb.2.y).natAbs
  ⟨u64ToI16 x, u64ToI16 y⟩

/-- The `Goal::Relax` arm (`brain.rs:687-708`): set `has_relaxed`; a goal
revisited on a later tick is finished; on its start tick pick the walk
target from the hash and path to it (`%` by a zero side length is a
division-by-zero panic). -/
def execRelax (rand : Nat) (current_tick : Nat) (current_position : TilePosition)
    (relax_start_tick : Nat) (walk_aabb : TilePosition × TilePosition)
    (scene : Scene) (broker : NotificationSet HaulDescription)
    (walls : BitGrid) (budget : Nat) : Except RtError ExecOut := do
  if relax_start_tick ≠ current_tick then
    return ⟨.relax relax_start_tick walk_aabb, none, false, true, scene, broker,
      true, false⟩
  else
    if (walk_aabb.1.x - walk_aabb.2.x).natAbs = 0 ∨
        (walk_aabb.1.y - walk_aabb.2.y).natAbs = 0 then
      throw .panicked
    let dst := relaxWalkTarget rand walk_aabb
    let p ← find_path_to_spec current_position dst true walls budget (bfsFuel walls)
    match p with
    | some path =>
        return ⟨.relax relax_start_tick walk_aabb,
          some (.followPath current_position path), false, false, scene, broker,
          true, false⟩
    | none =>
        return ⟨.relax relax_start_tick walk_aabb, none, false, false, scene,
          broker, true, false⟩

/-- The oxygen-consumption system of the RefillOxygen arm
(`brain.rs:712-733`): the first `(position, stockpile)` entity within
Manhattan distance 2 holding non-reserved oxygen with a positive first
matching slot loses one unit. -/
def oxygenConsumeLoop (current_position : TilePosition) :
    List (TilePosition × Stockpile) → List Stockpile × Bool
  | [] => ([], false)
  | (pos, sp) :: rest =>
    if pos.manhattan_distance current_position < 2 ∧
        sp.has_non_reserved_resources ResourceVariant.OXYGEN = true then
      let stockpile_amount := (sp.get_resources ResourceVariant.OXYGEN).getD 0
      if 0 < stockpile_amount then
        (sp.setFirstAmount ResourceVariant.OXYGEN (stockpile_amount - 1)
          :: rest.map Prod.snd, true)
      else
        let r := oxygenConsumeLoop current_position rest
        (sp :: r.1, r.2)
    else
      let r := oxygenConsumeLoop current_position rest
      (sp :: r.1, r.2)

/-- The breathing system (`brain.rs:741-753`): the agent's own oxygen
rises by one (saturating `u8`). -/
def breatheLoop (current_brain_index : Nat) :
    List CharacterEnt → List CharacterEnt
  | [] => []
  | c :: rest =>
    if c.status.brain_index = current_brain_index then
      ⟨⟨c.status.brain_index, min (c.status.oxygen + 1) 255,
        c.status.oxygen_depletion_amount, c.status.morale,
        c.status.morale_depletion_amount, c.status.morale_relaxing_increment,
        c.status.personality⟩, c.position, c.held⟩ :: rest
    else c :: breatheLoop current_brain_index rest

/-- The `Goal::RefillOxygen` arm (`brain.rs:710-754`). -/
def execRefillOxygen (current_brain_index : Nat) (current_position : TilePosition)
    (current_status : CharacterStatus) (scene : Scene)
    (broker : NotificationSet HaulDescription) : ExecOut :=
  let (stocks', oxygen_found) := oxygenConsumeLoop current_position scene.stockEntries
  let scene1 := scene.withStockEntries stocks'
  let gna := oxygen_found = false
  let finished := oxygen_found = true ∧
    CharacterStatus.MAX_OXYGEN ≤ (current_status.oxygen + 1) % 256
  let scene2 : Scene := ⟨breatheLoop current_brain_index scene1.characters,
    scene1.job_stations, scene1.resources, scene1.resource_capacity⟩
  ⟨.refillOxygen, none, decide gna, decide finished, scene2, broker, false, false⟩

/-- Whether a goal is `RefillOxygen` (the oxygen interrupt's
`matches!`). -/
def Goal.isRefillOxygen : Goal → Bool
  | .refillOxygen => true
  | _ => false

/-- Step 4 of `update_goals`: dispatch on the top-of-stack goal. -/
def executeGoal (rand : Nat) (current_brain_index : Nat)
    (current_position : TilePosition) (current_tick : Nat)
    (demoralized : Bool) (brain_job : Occupation) (wait_ticks : Nat)
    (current_status : CharacterStatus) (goal : Goal) (scene : Scene)
    (broker : NotificationSet HaulDescription) (walls : BitGrid)
    (budget : Nat) : Except RtError ExecOut :=
  match goal with
  | .work haul_wait_timeout job =>
      execWork demoralized brain_job current_position wait_ticks
        haul_wait_timeout job scene broker walls budget
  | .haul description =>
      execHaul current_brain_index current_position description scene broker
        walls budget
  | .followPath from_ path =>
      execFollowPath current_position from_ path scene broker walls budget
  | .relax relax_start_tick walk_aabb =>
      execRelax rand current_tick current_position relax_start_tick walk_aabb
        scene broker walls budget
  | .refillOxygen =>
      .ok (execRefillOxygen current_brain_index current_position current_status
        scene broker)

/-- `brain.rs:157-774`: `Brain::update_goals`, one planner tick.  Returns
the new brain, scene and broker (or a panic of the model).  The arena
budget is in elements; the source resets the arena between the seeding,
interrupt and execution steps, so each starts from the full budget. -/
def update_goals (current_brain_index : Nat) (current_position : TilePosition)
    (current_tick : Nat) (brain : Brain) (scene : Scene)
    (haul_notifications : NotificationSet HaulDescription) (walls : BitGrid)
    (budget : Nat) :
    Except RtError (Brain × Scene × NotificationSet HaulDescription) := do
  let rand := seahash (hashedBytesOf current_brain_index current_position current_tick)
  let current_status := findStatus scene current_brain_index
  if current_status.oxygen = 0 then
    return (⟨[], brain.job, brain.max_haul_amount, brain.wait_ticks,
      brain.ticks_without_goal, brain.has_relaxed⟩, scene, haul_notifications)
  let demoralized : Bool :=
    decide (current_status.morale ≤ CharacterStatus.LOW_MORALE_THRESHOLD)
  let mut stack := brain.goal_stack
  let mut broker := haul_notifications
  let mut scene' := scene
  let mut ticks_without_goal := brain.ticks_without_goal
  let mut has_relaxed := brain.has_relaxed
  if stack.isEmpty ∧ demoralized = false then
    match brain.job with
    | .idle => pure ()
    | .operator job =>
        stack ← pushGoalPanic stack (.work none job)
    | .hauler => do
        let r ← haulerSeed current_position scene' walls brain.max_haul_amount
          budget broker stack
        broker := r.1
        stack := r.2.1
        if r.2.2 then
          return (⟨stack, brain.job, brain.max_haul_amount, brain.wait_ticks,
            ticks_without_goal, has_relaxed⟩, scene', broker)
  if current_status.oxygen ≤ CharacterStatus.LOW_OXYGEN_THRESHOLD ∧
      stack.all (fun g => !g.isRefillOxygen) then
    let oxy ← find_non_reserved_resources scene' ResourceVariant.OXYGEN walls budget
    match oxy with
    | some oxygen =>
        let p ← find_path_to_any_spec current_position oxygen true walls
          (budget - bitGridAllocSize walls) (bfsFuel walls)
        match p with
        | some path => do
            stack ← pushGoalPanic stack .refillOxygen
            stack ← pushGoalPanic stack (.followPath current_position path)
        | none => pure ()
    | none => pure ()
  if stack.isEmpty then
    if brain.wait_ticks ≤ ticks_without_goal ∨ demoralized = true then
      stack ← pushGoalPanic stack (.relax current_tick
        (⟨i16SatSub current_position.x 5, i16SatSub current_position.y 5⟩,
         ⟨min (i16SatAdd current_position.x 5) (wrapI16 (wrapI16 walls.width - 1)),
          min (i16SatAdd current_position.y 5) (wrapI16 (wrapI16 walls.height - 1))⟩))
    else
      ticks_without_goal := ticks_without_goal + 1
  match stack.getLast? with
  | none =>
      return (⟨stack, brain.job, brain.max_haul_amount, brain.wait_ticks,
        ticks_without_goal, has_relaxed⟩, scene', broker)
  | some current_goal => do
      let out ← executeGoal rand current_brain_index current_position current_tick
        demoralized brain.job brain.wait_ticks current_status current_goal
        scene' broker walls budget
      scene' := out.scene
      broker := out.broker
      has_relaxed := has_relaxed || out.has_relaxed_set
      let stackTop := stack.dropLast ++ [out.topGoal]
      if out.early_return then
        return (⟨stackTop, brain.job, brain.max_haul_amount, brain.wait_ticks,
          ticks_without_goal, has_relaxed⟩, scene', broker)
      let stackF :=
        if out.not_acheivable then stackTop.dropLast
        else if out.finished then stackTop.dropLast
        else
          match out.instrumental with
          | some new_instrumental_goal => pushGoalOrClear stackTop new_instrumental_goal
          | none => stackTop
      return (⟨stackF, brain.job, brain.max_haul_amount, brain.wait_ticks,
        ticks_without_goal, has_relaxed⟩, scene', broker)

/-! ## Lemmas about the packed `Path` encoding -/

lemma Direction.to_u8_lt (d : Direction) : d.to_u8 < 4 := by
  cases d <;> decide

lemma Direction.from_to_u8 (d : Direction) : Direction.from_u8 d.to_u8 = d := by
  cases d <;> rfl

lemma Direction.neg_neg (d : Direction) : d.neg.neg = d := by
  cases d <;> rfl

/-- Or-ing a fresh 2-bit step code above the `s` occupied steps of a quad
appends exactly that step to the quad's decoded sequence. -/
lemma stepsOfQuad_or : ∀ s < 4, ∀ c < 4, ∀ q < 2 ^ (2 * s),
    stepsOfQuad (q ||| (c <<< (s * 2))) (s + 1) = stepsOfQuad q s ++ [Direction.from_u8 c] := by
  decide

lemma stepsOfQuad_one : ∀ c < 4, stepsOfQuad c 1 = [Direction.from_u8 c] := by
  decide

lemma quad_or_bound : ∀ s < 4, ∀ c < 4, ∀ q < 2 ^ (2 * s),
    (q ||| (c <<< (s * 2))) < 2 ^ (2 * (s + 1)) := by decide

lemma quad_byte_bound : ∀ s < 4, ∀ c < 4, ∀ q < 2 ^ (2 * s),
    (q ||| (c <<< (s * 2))) < 256 := by decide

lemma stepsOfQuad_length (q n : Nat) : (stepsOfQuad q n).length = n := by
  simp [stepsOfQuad]

lemma flat4_length (L : List Nat) :
    ((L.map fun q => stepsOfQuad q 4).flatten).length = 4 * L.length := by
  induction L with
  | nil => rfl
  | cons q L ih =>
      simp only [List.map_cons, List.flatten_cons, List.length_append,
        stepsOfQuad_length, ih, List.length_cons]
      omega

lemma toSteps_length_eq (p : Path) (h : p.step_quads ≠ []) :
    p.toSteps.length = 4 * (p.step_quads.length - 1) + p.steps_in_last_quad := by
  rcases hgl : p.step_quads.getLast? with _ | q
  · exact absurd (List.getLast?_eq_none_iff.mp hgl) h
  · simp only [Path.toSteps, hgl, List.length_append, flat4_length,
      stepsOfQuad_length, List.length_dropLast]

lemma toSteps_length_le (p : Path) (h : p.WF) : p.toSteps.length ≤ 224 := by
  obtain ⟨hL, _, hE, hN⟩ := h
  by_cases hq : p.step_quads = []
  · simp [Path.toSteps, hq]
  · have hn := hN hq
    have := toSteps_length_eq p hq
    omega

/-- The `1 ≤ s < 4` case of `add_step`: the step is or-ed into the last
quad. -/
lemma c7_or_case (s : Nat) (quads : List Nat) (q : Nat) (d : Direction)
    (hglast : quads.getLast? = some q)
    (hqlt : q < 2 ^ (2 * s))
    (hL : quads.length ≤ 56)
    (hB : ∀ x ∈ quads, x < 256)
    (hs1 : 1 ≤ s) (hs4 : s < 4) :
    (Path.add_step ⟨quads, s⟩ d).toSteps = (Path.toSteps ⟨quads, s⟩) ++ [d] ∧
      (Path.add_step ⟨quads, s⟩ d).WF := by
  have hq : quads ≠ [] := by
    intro h
    rw [h] at hglast
    exact Option.noConfusion hglast
  have hmod : ¬ s % 4 = 0 := by omega
  have hstep : Path.add_step ⟨quads, s⟩ d =
      ⟨quads.dropLast ++ [q ||| (d.to_u8 <<< (s * 2))], s + 1⟩ := by
    simp [Path.add_step, hmod, hglast]
  rw [hstep]
  constructor
  · simp only [Path.toSteps, List.dropLast_concat, List.getLast?_concat, hglast]
    rw [stepsOfQuad_or s hs4 d.to_u8 d.to_u8_lt q hqlt, Direction.from_to_u8]
    simp [List.append_assoc]
  · refine ⟨?_, ?_, ?_, ?_⟩
    · have h1 : 1 ≤ quads.length := List.length_pos.mpr hq
      simp only [List.length_append, List.length_dropLast, List.length_cons,
        List.length_nil]
      omega
    · intro x hx
      rcases List.mem_append.mp hx with hx | hx
      · exact hB x (List.dropLast_subset _ hx)
      · simp only [List.mem_singleton] at hx
        subst hx
        exact quad_byte_bound s hs4 d.to_u8 d.to_u8_lt q hqlt
    · intro hcontra
      exact absurd hcontra (by simp)
    · intro _
      refine ⟨?_, ?_, ?_⟩
      · show 1 ≤ s + 1
        omega
      · show s + 1 ≤ 4
        omega
      · show (quads.dropLast ++ [q ||| (d.to_u8 <<< (s * 2))]).getLastD 0 <
          2 ^ (2 * (s + 1))
        rw [List.getLastD_concat]
        exact quad_or_bound s hs4 d.to_u8 d.to_u8_lt q hqlt

/-- `add_step` on a well-formed, not-full path appends the step to the
decoded sequence and preserves well-formedness. -/
lemma toSteps_add_step (p : Path) (d : Direction) (hwf : p.WF)
    (hnotfull : ¬(p.steps_in_last_quad = 4 ∧ p.step_quads.length = 56)) :
    (p.add_step d).toSteps = p.toSteps ++ [d] ∧ (p.add_step d).WF := by
  obtain ⟨quads, s⟩ := p
  obtain ⟨hL, hB, hE, hN⟩ := hwf
  dsimp only at hL hB hE hN hnotfull
  by_cases hq : quads = []
  · subst hq
    have hs : s = 0 := hE rfl
    subst hs
    cases d <;> exact ⟨rfl, by decide⟩
  · obtain ⟨hs1, hs4, hqlt0⟩ := hN hq
    obtain ⟨q, hglast⟩ : ∃ x, quads.getLast? = some x := by
      rcases hgl : quads.getLast? with _ | x
      · exact absurd (List.getLast?_eq_none_iff.mp hgl) hq
      · exact ⟨x, rfl⟩
    have hqd : quads.getLastD 0 = q := by
      rw [List.getLastD_eq_getLast? , hglast]
      rfl
    rw [hqd] at hqlt0
    have hsplit : quads.dropLast ++ [q] = quads :=
      List.dropLast_append_getLast? q hglast
    by_cases hs : s = 4
    · -- s = 4: push a fresh quad
      subst hs
      have hL56 : ¬ quads.length = 56 := fun h => hnotfull ⟨rfl, h⟩
      have hstep : Path.add_step ⟨quads, 4⟩ d = ⟨quads ++ [d.to_u8], 1⟩ := by
        simp [Path.add_step, hL56]
      rw [hstep]
      constructor
      · simp only [Path.toSteps, List.dropLast_concat, List.getLast?_concat, hglast]
        rw [stepsOfQuad_one d.to_u8 d.to_u8_lt, Direction.from_to_u8]
        conv_lhs => rw [← hsplit]
        simp [List.map_append, List.flatten_append, List.append_assoc]
      · refine ⟨?_, ?_, ?_, ?_⟩
        · simp only [List.length_append, List.length_cons, List.length_nil]
          omega
        · intro x hx
          rcases List.mem_append.mp hx with hx | hx
          · exact hB x hx
          · simp only [List.mem_singleton] at hx
            subst hx
            exact lt_trans d.to_u8_lt (by norm_num)
        · intro hcontra
          exact absurd hcontra (by simp)
        · intro _
          refine ⟨le_refl 1, by norm_num, ?_⟩
          show (quads ++ [d.to_u8]).getLastD 0 < 2 ^ (2 * 1)
          rw [List.getLastD_concat]
          norm_num
          exact d.to_u8_lt
    · have hslt : s < 4 := by omega
      exact c7_or_case s quads q d hglast hqlt0 hL hB hs1 hslt

/-- Folding `add_step` over at most 224 steps builds a well-formed path
that decodes back to exactly those steps. -/
lemma fromSteps_roundtrip (l : List Direction) (hlen : l.length ≤ 224) :
    (Path.fromSteps l).WF ∧ (Path.fromSteps l).toSteps = l := by
  induction l using List.reverseRecOn with
  | nil => exact ⟨by decide, rfl⟩
  | append_singleton l d ih =>
      have hl : l.length ≤ 223 := by
        simp only [List.length_append, List.length_cons, List.length_nil] at hlen
        omega
      obtain ⟨hwf, hts⟩ := ih (by omega)
      have hfold : Path.fromSteps (l ++ [d]) = (Path.fromSteps l).add_step d := by
        simp [Path.fromSteps, List.foldl_append]
      have hnotfull : ¬((Path.fromSteps l).steps_in_last_quad = 4 ∧
          (Path.fromSteps l).step_quads.length = 56) := by
        rintro ⟨h4, h56⟩
        have hne : (Path.fromSteps l).step_quads ≠ [] := by
          intro h
          rw [h] at h56
          simp at h56
        have hleq := toSteps_length_eq (Path.fromSteps l) hne
        rw [hts] at hleq
        omega
      obtain ⟨heq, hwf'⟩ := toSteps_add_step (Path.fromSteps l) d hwf hnotfull
      rw [hfold]
      exact ⟨hwf', by rw [heq, hts]⟩

/-- `Path::reverse` of a well-formed path decodes to the reversed,
negated step sequence, and is itself well-formed. -/
lemma toSteps_reverse (p : Path) (h : p.WF) :
    p.reverse.toSteps = p.toSteps.reverse.map Direction.neg ∧ p.reverse.WF := by
  have hlen : (p.toSteps.reverse.map Direction.neg).length ≤ 224 := by
    simp only [List.length_map, List.length_reverse]
    exact toSteps_length_le p h
  obtain ⟨hwf, hts⟩ := fromSteps_roundtrip (p.toSteps.reverse.map Direction.neg) hlen
  exact ⟨hts, hwf⟩

/-- C7: for every well-formed `Path` (the invariant of every path built
through `add_step` from `Path::default()`), `reverse(reverse(P))` yields
the same step sequence as `P` — the same length and the same `Direction`
at every index — because a single `reverse` both reverses the order of
the steps and negates each step. -/
theorem C7_reverse_reverse (p : Path) (h : p.WF) :
    p.reverse.reverse.toSteps = p.toSteps := by
  obtain ⟨h1, h1wf⟩ := toSteps_reverse p h
  obtain ⟨h2, _⟩ := toSteps_reverse p.reverse h1wf
  rw [h2, h1]
  simp only [List.map_reverse, List.reverse_reverse, List.map_map]
  have hid : (Direction.neg ∘ Direction.neg) = id := funext Direction.neg_neg
  rw [hid, List.map_id]

/-- Witness for C7 at the source test fixture's 7-step path. -/
theorem C7_reverse_reverse_witness :
    (Path.fromSteps [.down, .down, .right, .right, .right, .right, .up]).WF ∧
      (Path.fromSteps
          [.down, .down, .right, .right, .right, .right, .up]).reverse.reverse.toSteps =
        (Path.fromSteps [.down, .down, .right, .right, .right, .right, .up]).toSteps :=
  ⟨by decide, C7_reverse_reverse _ (by decide)⟩

/-! ## Lemmas about the task broker -/

lemma set_append_len {α : Type} (l : List α) (e v : α) :
    (l ++ [e]).set l.length v = l ++ [v] := by
  induction l with
  | nil => rfl
  | cons a l ih => simp [List.set_cons_succ, ih]

lemma findIdx?_append_last {α : Type} (p : α → Bool) (y : α) (hy : p y = true) :
    ∀ (l : List α) (s : Nat), (∀ e ∈ l, p e = false) →
      List.findIdx? p (l ++ [y]) s = some (s + l.length) := by
  intro l
  induction l with
  | nil => intro s _; simp [List.findIdx?_cons, hy]
  | cons a l ih =>
      intro s h
      have ha : p a = false := h a (List.mem_cons_self a l)
      have := ih (s + 1) (fun e he => h e (List.mem_cons_of_mem a he))
      simp only [List.cons_append, List.findIdx?_cons, ha, Bool.false_eq_true,
        if_false, this, List.length_cons]
      exact congrArg some (by omega)

/-- C8: on any broker state satisfying the reachable invariant (all live
ids below the counter) and with free capacity, `notify(x)` succeeds with
the fresh id `id_counter`; an immediate `remove(id)` returns exactly `x`
and restores the table, and `check(id)` is false afterwards. -/
theorem C8_notify_remove_roundtrip {T : Type} (s : NotificationSet T) (x : T)
    (hids : ∀ e ∈ s.notifications, e.1 < s.id_counter)
    (hcap : s.notifications.length < s.capacity) :
    s.notify x = .ok (s.id_counter,
        ⟨s.notifications ++ [(s.id_counter, x)],
         (s.id_counter + 1) % 2 ^ 32, s.capacity⟩) ∧
      (NotificationSet.remove
          ⟨s.notifications ++ [(s.id_counter, x)],
           (s.id_counter + 1) % 2 ^ 32, s.capacity⟩
          s.id_counter) =
        some (x, ⟨s.notifications, (s.id_counter + 1) % 2 ^ 32, s.capacity⟩) ∧
      NotificationSet.check
        (⟨s.notifications, (s.id_counter + 1) % 2 ^ 32, s.capacity⟩ :
          NotificationSet T)
        s.id_counter = false := by
  have hne : ∀ e ∈ s.notifications, (e.1 == s.id_counter) = false := by
    intro e he
    have := hids e he
    simp only [beq_eq_false_iff_ne, ne_eq]
    omega
  refine ⟨?_, ?_, ?_⟩
  · simp [NotificationSet.notify, Nat.ne_of_lt hcap]
  · have hfind := findIdx?_append_last (fun e => e.1 == s.id_counter)
      (s.id_counter, x) (by simp) s.notifications 0 hne
    simp only [NotificationSet.remove, hfind, Nat.zero_add]
    have hget : (s.notifications ++ [(s.id_counter, x)])[s.notifications.length]? =
        some (s.id_counter, x) := by
      rw [List.getElem?_append_right (le_refl _)]
      simp
    have hlen : (s.notifications ++ [(s.id_counter, x)]).length - 1 =
        s.notifications.length := by simp
    simp only [hget, List.getLast?_concat, hlen,
      set_append_len, List.dropLast_concat]
  · simp only [NotificationSet.check, List.any_eq_false]
    intro e he
    simp only [beq_iff_eq]
    have := hids e he
    omega

/-- Witness for C8 on a concrete two-entry broker. -/
theorem C8_notify_remove_roundtrip_witness :
    (∀ e ∈ (⟨[(0, 10), (2, 20)], 3, 4⟩ : NotificationSet Nat).notifications,
        e.1 < 3) ∧
      (⟨[(0, 10), (2, 20)], 3, 4⟩ : NotificationSet Nat).notify 99 =
        .ok (3, ⟨[(0, 10), (2, 20), (3, 99)], 4, 4⟩) ∧
      (NotificationSet.remove (⟨[(0, 10), (2, 20), (3, 99)], 4, 4⟩ :
          NotificationSet Nat) 3) = some (99, ⟨[(0, 10), (2, 20)], 4, 4⟩) ∧
      NotificationSet.check (⟨[(0, 10), (2, 20)], 4, 4⟩ : NotificationSet Nat) 3 =
        false :=
  ⟨by decide,
    C8_notify_remove_roundtrip (⟨[(0, 10), (2, 20)], 3, 4⟩ : NotificationSet Nat)
      99 (by decide) (by decide)⟩

/-- The broker invariant: every live id is below the counter, and no two
live entries share an id. -/
def BrokerInv {T : Type} (s : NotificationSet T) : Prop :=
  (∀ e ∈ s.notifications, e.1 < s.id_counter) ∧
    (s.notifications.map Prod.fst).Nodup

lemma findIdx?_bound {α : Type} (p : α → Bool) :
    ∀ (l : List α) (s i : Nat), List.findIdx? p l s = some i → s ≤ i ∧ i - s < l.length := by
  intro l
  induction l with
  | nil => intro s i h; simp [List.findIdx?] at h
  | cons a l ih =>
      intro s i h
      rw [List.findIdx?_cons] at h
      by_cases hp : p a = true
      · simp only [hp, if_true, Option.some.injEq] at h
        subst h
        simp only [List.length_cons]
        omega
      · simp only [hp, if_false, Bool.false_eq_true] at h
        have := ih (s + 1) i h
        simp only [List.length_cons]
        omega

lemma set_getElem_self {α : Type} :
    ∀ (l : List α) (i : Nat) (h : i < l.length), l.set i l[i] = l := by
  intro l
  induction l with
  | nil => intro i h; simp at h
  | cons a l ih =>
      intro i h
      cases i with
      | zero => simp
      | succ i =>
          simp only [List.getElem_cons_succ, List.set_cons_succ]
          rw [ih i (by simpa using h)]

/-- The shape of swap-with-last removal: either the removed index is the
last slot (the result is `dropLast`), or the list splits as
`A ++ e :: (C ++ [last])` and the result is `A ++ last :: C`. -/
lemma swapRemove_shape {α : Type} (l : List α) (i : Nat)
    (hi : i < l.length) (e last : α) (he : l[i]? = some e)
    (hlast : l.getLast? = some last) :
    (((l.set i last).set (l.length - 1) e).dropLast = l.dropLast ∧
      l.dropLast ++ [e] = l) ∨
    (∃ A C, A ++ e :: (C ++ [last]) = l ∧
      ((l.set i last).set (l.length - 1) e).dropLast = A ++ last :: C) := by
  have hiv : l[i] = e := by
    rw [List.getElem?_eq_some] at he
    exact he.2
  by_cases hcase : i = l.length - 1
  · -- removing the last element: both sets are the identity
    subst hcase
    left
    have hle : last = e := by
      rw [List.getLast?_eq_getElem?, List.getElem?_eq_some] at hlast
      obtain ⟨h', hv⟩ := hlast
      rw [← hv, hiv]
    have hsete : l.set (l.length - 1) e = l := by
      conv_lhs => rw [← hiv]
      exact set_getElem_self l (l.length - 1) hi
    refine ⟨by rw [hle, hsete, hsete], ?_⟩
    have hne : l ≠ [] := by
      intro h
      rw [h] at hi
      simp at hi
    have := List.dropLast_append_getLast? last hlast
    rw [hle] at this
    exact this
  · -- interior removal
    have hilt : i < l.length - 1 := by omega
    have hA : l.take i ++ l[i] :: l.drop (i + 1) = l := by
      rw [List.getElem_cons_drop]
      exact List.take_append_drop i l
    set A := l.take i with hAdef
    set B := l.drop (i + 1) with hBdef
    have hAlen : A.length = i := by
      rw [hAdef, List.length_take]
      omega
    have hBne : B ≠ [] := by
      rw [hBdef, ← List.length_pos, List.length_drop]
      omega
    have hA2 : (A ++ [l[i]]) ++ B = l := by
      rw [List.append_assoc]
      simpa using hA
    have hBlast : B.getLast? = some last := by
      rw [← hA2, List.getLast?_append_of_ne_nil _ hBne] at hlast
      exact hlast
    have hBC : B.dropLast ++ [last] = B := List.dropLast_append_getLast? last hBlast
    set C := B.dropLast with hCdef
    have hBlen : B.length = C.length + 1 := by
      rw [← hBC]
      simp
    have hllen : l.length = A.length + B.length + 1 := by
      conv_lhs => rw [← hA]
      simp
      omega
    have step1 : l.set i last = A ++ last :: B := by
      conv_lhs => rw [← hA]
      rw [List.set_append, if_neg (by omega)]
      rw [hAlen, Nat.sub_self, List.set_cons_zero]
    have step2 : (A ++ last :: B).set (l.length - 1) e = A ++ last :: (C ++ [e]) := by
      rw [List.set_append, if_neg (by omega)]
      have hidx : l.length - 1 - A.length = C.length + 1 := by omega
      rw [hidx, List.set_cons_succ]
      conv_lhs => rw [← hBC]
      rw [set_append_len]
    have step3 : (A ++ last :: (C ++ [e])).dropLast = A ++ last :: C := by
      have hassoc : A ++ last :: (C ++ [e]) = (A ++ last :: C) ++ [e] := by
        simp
      rw [hassoc, List.dropLast_concat]
    right
    refine ⟨A, C, ?_, by rw [step1, step2, step3]⟩
    rw [hiv] at hA
    rw [← hA, hBC]

/-- Swap-with-last removal keeps the mapped-id list duplicate-free. -/
lemma swapRemove_nodup {α β : Type} (f : α → β) (l : List α) (i : Nat)
    (hi : i < l.length) (e last : α) (he : l[i]? = some e)
    (hlast : l.getLast? = some last)
    (hnd : (l.map f).Nodup) :
    ((((l.set i last).set (l.length - 1) e).dropLast).map f).Nodup := by
  rcases swapRemove_shape l i hi e last he hlast with ⟨hres, _⟩ | ⟨A, C, hl2, hres⟩
  · rw [hres]
    exact ((List.dropLast_sublist l).map f).nodup hnd
  · rw [hres]
    rw [← hl2] at hnd
    simp only [List.map_append, List.map_cons] at hnd ⊢
    have h1 := (List.nodup_middle.mp hnd).of_cons
    rw [← List.append_assoc] at h1
    have h2 := (List.perm_append_singleton (f last) (A.map f ++ C.map f)).nodup h1
    exact List.nodup_middle.mpr h2

/-- After swap-with-last removal of the unique entry with a given id, no
remaining entry carries that id. -/
lemma swapRemove_check_false {T : Type} (id : Nat) (l : List (Nat × T)) (i : Nat)
    (hi : i < l.length) (e last : Nat × T) (he : l[i]? = some e)
    (hlast : l.getLast? = some last) (hnd : (l.map Prod.fst).Nodup)
    (hpe : e.1 = id) :
    ∀ a ∈ ((l.set i last).set (l.length - 1) e).dropLast, a.1 ≠ id := by
  rcases swapRemove_shape l i hi e last he hlast with ⟨hres, hsplit⟩ | ⟨A, C, hl2, hres⟩
  · rw [hres]
    intro a ha
    rw [← hsplit] at hnd
    simp only [List.map_append, List.map_cons, List.map_nil] at hnd
    rw [List.nodup_append] at hnd
    intro hcontra
    exact hnd.2.2 (List.mem_map_of_mem Prod.fst ha) (by simp [hcontra, hpe])
  · rw [hres]
    intro a ha
    rw [← hl2] at hnd
    simp only [List.map_append, List.map_cons] at hnd
    have h1 := List.nodup_middle.mp hnd
    rw [List.nodup_cons] at h1
    have hnotin := h1.1
    intro hcontra
    apply hnotin
    rw [hpe, ← hcontra]
    rcases List.mem_append.mp ha with hA | hx
    · exact List.mem_append.mpr (Or.inl (List.mem_map_of_mem Prod.fst hA))
    · rcases List.mem_cons.mp hx with hx | hC
      · subst hx
        exact List.mem_append.mpr (Or.inr (List.mem_append.mpr (Or.inr (by simp))))
      · exact List.mem_append.mpr (Or.inr (List.mem_append.mpr (Or.inl
          (List.mem_map_of_mem Prod.fst hC))))

/-- Swap-with-last removal only keeps entries of the original table. -/
lemma swapRemove_subset {α : Type} (l : List α) (i : Nat) (e last : α)
    (he : l[i]? = some e) (hlast : l.getLast? = some last) :
    ∀ a ∈ (((l.set i last).set (l.length - 1) e).dropLast), a ∈ l := by
  have hlmem : last ∈ l := by
    rw [List.getLast?_eq_getElem?, List.getElem?_eq_some] at hlast
    obtain ⟨hb, hv⟩ := hlast
    rw [← hv]
    exact List.getElem_mem hb
  have hemem : e ∈ l := by
    rw [List.getElem?_eq_some] at he
    obtain ⟨hb, hv⟩ := he
    rw [← hv]
    exact List.getElem_mem hb
  intro a ha
  have h1 := List.dropLast_subset _ ha
  rcases List.mem_or_eq_of_mem_set h1 with h2 | h2
  · rcases List.mem_or_eq_of_mem_set h2 with h3 | h3
    · exact h3
    · rw [h3]
      exact hlmem
  · rw [h2]
    exact hemem

lemma notify_preserves {T : Type} {s : NotificationSet T} {x : T} {id : Nat}
    {s' : NotificationSet T} (h : s.notify x = .ok (id, s')) (hinv : BrokerInv s)
    (hw : s.id_counter + 1 < 2 ^ 32) :
    BrokerInv s' ∧ id = s.id_counter ∧ s'.id_counter = s.id_counter + 1 := by
  unfold NotificationSet.notify at h
  by_cases hc : s.notifications.length = s.capacity
  · simp [hc] at h
  · simp only [hc, if_false, Except.ok.injEq, Prod.mk.injEq] at h
    obtain ⟨hid, hs'⟩ := h
    subst hid
    subst hs'
    rw [Nat.mod_eq_of_lt hw]
    refine ⟨⟨?_, ?_⟩, rfl, rfl⟩
    · intro e he
      rcases List.mem_append.mp he with he | he
      · have := hinv.1 e he
        simp only
        omega
      · simp only [List.mem_singleton] at he
        subst he
        simp
    · simp only [List.map_append, List.map_cons, List.map_nil]
      rw [List.nodup_append]
      refine ⟨hinv.2, List.nodup_singleton _, ?_⟩
      intro a ha hb
      simp only [List.mem_singleton] at hb
      subst hb
      obtain ⟨e, hel, hef⟩ := List.mem_map.mp ha
      have := hinv.1 e hel
      omega

lemma remove_preserves {T : Type} {s : NotificationSet T} {id : Nat}
    {r : T × NotificationSet T} (h : s.remove id = some r) (hinv : BrokerInv s) :
    BrokerInv r.2 ∧ r.2.id_counter = s.id_counter := by
  unfold NotificationSet.remove at h
  rcases hfind : s.notifications.findIdx? (fun e => e.1 == id) with _ | i
  · simp [hfind] at h
  · simp only [hfind] at h
    rcases hget : s.notifications[i]? with _ | e
    · simp [hget] at h
    · simp only [hget] at h
      rcases hlast : s.notifications.getLast? with _ | last
      · simp [hlast] at h
      · simp only [hlast, Option.some.injEq] at h
        subst h
        have hi : i < s.notifications.length := by
          have := findIdx?_bound (fun e => e.1 == id) s.notifications 0 i hfind
          omega
        refine ⟨⟨?_, ?_⟩, rfl⟩
        · intro a ha
          exact hinv.1 a (swapRemove_subset s.notifications i e last hget hlast a ha)
        · exact swapRemove_nodup Prod.fst s.notifications i hi e last hget hlast hinv.2

lemma modify_preserves {T : Type} (s : NotificationSet T) (id : Nat) (f : T → T)
    (hinv : BrokerInv s) :
    BrokerInv (s.modifyData id f) ∧ (s.modifyData id f).id_counter = s.id_counter := by
  unfold NotificationSet.modifyData
  rcases hfind : s.notifications.findIdx? (fun e => e.1 == id) with _ | i
  · simp only [hfind]
    exact ⟨hinv, trivial⟩
  · simp only [hfind]
    rcases hget : s.notifications[i]? with _ | e
    · simp only [hget]
      exact ⟨hinv, trivial⟩
    · simp only [hget]
      rw [List.getElem?_eq_some] at hget
      obtain ⟨hi, hv⟩ := hget
      refine ⟨⟨?_, ?_⟩, trivial⟩
      · intro a ha
        rcases List.mem_or_eq_of_mem_set ha with h2 | h2
        · exact hinv.1 a h2
        · rw [h2]
          have : e ∈ s.notifications := by
            rw [← hv]
            exact List.getElem_mem hi
          exact hinv.1 e this
      · simp only [List.map_set]
        have hfst : ((s.notifications.map Prod.fst).set i e.1) =
            s.notifications.map Prod.fst := by
          have hi' : i < (s.notifications.map Prod.fst).length := by
            simpa using hi
          have : (s.notifications.map Prod.fst)[i] = e.1 := by
            rw [List.getElem_map]
            rw [hv]
          rw [← this]
          exact set_getElem_self _ i hi'
        rw [hfst]
        exact hinv.2

/-- The broker operations `update_goals` performs: `notify`, `remove`,
and payload mutation through `get_mut`. -/
inductive BrokerOp (T : Type) where
  | notifyOp (x : T)
  | removeOp (id : Nat)
  | modifyOp (id : Nat) (x : T)

/-- One broker operation: the new state and the id returned when the
operation was a successful `notify`. -/
def brokerStep {T : Type} (s : NotificationSet T) :
    BrokerOp T → NotificationSet T × Option Nat
  | .notifyOp x =>
      match s.notify x with
      | .ok r => (r.2, some r.1)
      | .error _ => (s, none)
  | .removeOp id =>
      match s.remove id with
      | some r => (r.2, none)
      | none => (s, none)
  | .modifyOp id x => (s.modifyData id (fun _ => x), none)

/-- Run a sequence of broker operations, collecting the ids returned by
successful `notify` calls in order. -/
def brokerRun {T : Type} (s : NotificationSet T) :
    List (BrokerOp T) → NotificationSet T × List Nat
  | [] => (s, [])
  | op :: ops =>
      let r := brokerStep s op
      let rest := brokerRun r.1 ops
      (rest.1, (match r.2 with | some id => [id] | none => []) ++ rest.2)

/-- The number of counter increments an operation can cause: one for a
`notify`, none otherwise. -/
def opNotifyWeight {T : Type} : BrokerOp T → Nat
  | .notifyOp _ => 1
  | _ => 0

/-- How many `notify` operations a sequence contains. -/
def notifyCount {T : Type} (ops : List (BrokerOp T)) : Nat :=
  (ops.map opNotifyWeight).sum

lemma notifyCount_nil {T : Type} : notifyCount ([] : List (BrokerOp T)) = 0 :=
  rfl

lemma notifyCount_cons {T : Type} (op : BrokerOp T) (ops : List (BrokerOp T)) :
    notifyCount (op :: ops) = opNotifyWeight op + notifyCount ops := by
  simp [notifyCount]

lemma brokerStep_preserves {T : Type} (s : NotificationSet T) (op : BrokerOp T)
    (hinv : BrokerInv s) (hw : s.id_counter + opNotifyWeight op < 2 ^ 32) :
    BrokerInv (brokerStep s op).1 ∧ s.id_counter ≤ (brokerStep s op).1.id_counter ∧
      (brokerStep s op).1.id_counter ≤ s.id_counter + opNotifyWeight op ∧
      (∀ id ∈ (brokerStep s op).2, id = s.id_counter ∧
        id < (brokerStep s op).1.id_counter) := by
  cases op with
  | notifyOp x =>
      simp only [brokerStep, opNotifyWeight] at hw ⊢
      rcases hn : s.notify x with e | r
      · simp only [hn]
        exact ⟨hinv, le_refl _, by omega, by simp⟩
      · simp only [hn]
        obtain ⟨hinv', hid, hc⟩ := notify_preserves hn hinv hw
        refine ⟨hinv', by omega, by omega, ?_⟩
        intro id hid'
        simp only [Option.mem_def, Option.some.injEq] at hid'
        subst hid'
        omega
  | removeOp id =>
      simp only [brokerStep, opNotifyWeight]
      rcases hr : s.remove id with _ | r
      · simp only [hr]
        exact ⟨hinv, le_refl _, by omega, by simp⟩
      · simp only [hr]
        obtain ⟨hinv', hc⟩ := remove_preserves hr hinv
        exact ⟨hinv', by omega, by omega, by simp⟩
  | modifyOp id x =>
      simp only [brokerStep, opNotifyWeight]
      obtain ⟨hinv', hc⟩ := modify_preserves s id (fun _ => x) hinv
      exact ⟨hinv', by omega, by omega, by simp⟩

lemma brokerRun_spec {T : Type} (ops : List (BrokerOp T)) :
    ∀ (s : NotificationSet T), BrokerInv s →
      s.id_counter + notifyCount ops < 2 ^ 32 →
      BrokerInv (brokerRun s ops).1 ∧
        s.id_counter ≤ (brokerRun s ops).1.id_counter ∧
        (brokerRun s ops).1.id_counter ≤ s.id_counter + notifyCount ops ∧
        (brokerRun s ops).2.Pairwise (fun a b => a < b) ∧
        (∀ id ∈ (brokerRun s ops).2,
          s.id_counter ≤ id ∧ id < (brokerRun s ops).1.id_counter) := by
  induction ops with
  | nil =>
      intro s hinv hw
      exact ⟨hinv, le_refl _, by simp [brokerRun, notifyCount],
        by simp [brokerRun], by simp [brokerRun]⟩
  | cons op ops ih =>
      intro s hinv hw
      rw [notifyCount_cons] at hw
      obtain ⟨hinv1, hmono1, hstep1, hids1⟩ :=
        brokerStep_preserves s op hinv (by omega)
      obtain ⟨hinv2, hmono2, hcnt2, hpair2, hbound2⟩ :=
        ih (brokerStep s op).1 hinv1 (by omega)
      simp only [brokerRun, notifyCount_cons]
      rcases hr : (brokerStep s op).2 with _ | id
      · simp only [List.nil_append]
        refine ⟨hinv2, by omega, by omega, hpair2, ?_⟩
        intro id hmem
        have := hbound2 id hmem
        omega
      · obtain ⟨hideq, hidlt⟩ := hids1 id (by rw [hr]; rfl)
        simp only [List.cons_append, List.nil_append]
        refine ⟨hinv2, by omega, by omega, ?_, ?_⟩
        · rw [List.pairwise_cons]
          refine ⟨?_, hpair2⟩
          intro b hb
          have := hbound2 b hb
          omega
        · intro i hmem
          rcases List.mem_cons.mp hmem with hmem | hmem
          · subst hmem
            omega
          · have := hbound2 i hmem
            omega

/-- C9 (amended): for any sequence of `notify`, `remove` and `get_mut`
operations on a broker created by `NotificationSet::new` that contains
fewer than `2 ^ 32` notifies — so the `u32` id counter never wraps — the
ids returned by successful `notify` calls are strictly increasing (no id
is ever reused for a later entry), and at every point at most one live
entry in the table carries any given id (all live ids are distinct and
below the counter).  The bound is necessary: once the counter wraps, an
id still held by a live entry is reissued. -/
theorem C9_broker_ids_unique (T : Type) (capacity : Nat)
    (ops : List (BrokerOp T)) (hw : notifyCount ops < 2 ^ 32) :
    BrokerInv (brokerRun (NotificationSet.new T capacity) ops).1 ∧
      (brokerRun (NotificationSet.new T capacity) ops).2.Pairwise
        (fun a b => a < b) := by
  have h := brokerRun_spec ops (NotificationSet.new T capacity)
    ⟨by simp [NotificationSet.new], by simp [NotificationSet.new]⟩
    (by simpa [NotificationSet.new] using hw)
  exact ⟨h.1, h.2.2.2.1⟩

/-- Witness for C9 on a concrete operation sequence: two notifies, a
removal of the first id, a payload mutation, and two more notifies. -/
theorem C9_broker_ids_unique_witness :
    notifyCount [BrokerOp.notifyOp 10, .notifyOp 20, .removeOp 0,
        .modifyOp 1 21, .notifyOp 30, .notifyOp 40] < 2 ^ 32 ∧
      (BrokerInv (brokerRun (NotificationSet.new Nat 3)
          [.notifyOp 10, .notifyOp 20, .removeOp 0, .modifyOp 1 21,
           .notifyOp 30, .notifyOp 40]).1 ∧
        (brokerRun (NotificationSet.new Nat 3)
          [.notifyOp 10, .notifyOp 20, .removeOp 0, .modifyOp 1 21,
           .notifyOp 30, .notifyOp 40]).2.Pairwise (fun a b => a < b)) :=
  ⟨by decide,
    C9_broker_ids_unique Nat 3
      [.notifyOp 10, .notifyOp 20, .removeOp 0, .modifyOp 1 21,
       .notifyOp 30, .notifyOp 40] (by decide)⟩

/-- One `notify` followed by the matching `remove`, repeated `n` times
with the first fresh id `c`: each round trip leaves the table unchanged
and advances the id counter by one. -/
def idReuseCycles : Nat → Nat → List (BrokerOp Nat)
  | _, 0 => []
  | c, n + 1 => .notifyOp 1 :: .removeOp c :: idReuseCycles (c + 1) n

/-- An operation sequence crossing the `u32` counter wrap on a two-slot
broker: one long-lived notify (taking id 0), `2 ^ 32 - 1` notify/remove
round trips, and one final notify. -/
def idReuseOps : List (BrokerOp Nat) :=
  .notifyOp 0 :: (idReuseCycles 1 (2 ^ 32 - 1) ++ [.notifyOp 2])

lemma brokerRun_fst_cons {T : Type} (s : NotificationSet T) (op : BrokerOp T)
    (ops : List (BrokerOp T)) :
    (brokerRun s (op :: ops)).1 = (brokerRun (brokerStep s op).1 ops).1 :=
  rfl

lemma brokerRun_fst_append {T : Type} :
    ∀ (l1 : List (BrokerOp T)) (s : NotificationSet T) (l2 : List (BrokerOp T)),
      (brokerRun s (l1 ++ l2)).1 = (brokerRun (brokerRun s l1).1 l2).1 := by
  intro l1
  induction l1 with
  | nil => intro s l2; rfl
  | cons op l1 ih =>
      intro s l2
      rw [List.cons_append, brokerRun_fst_cons, brokerRun_fst_cons]
      exact ih (brokerStep s op).1 l2

lemma brokerStep_notify_one (x c : Nat) :
    brokerStep (⟨[(0, x)], c, 2⟩ : NotificationSet Nat) (.notifyOp 1) =
      (⟨[(0, x), (c, 1)], (c + 1) % 2 ^ 32, 2⟩, some c) := by
  simp [brokerStep, NotificationSet.notify]

lemma brokerStep_remove_pair (x y c d : Nat) (hc : 1 ≤ c) :
    brokerStep (⟨[(0, x), (c, y)], d, 2⟩ : NotificationSet Nat) (.removeOp c) =
      (⟨[(0, x)], d, 2⟩, none) := by
  have h0 : ((0 : Nat) == c) = false := by
    simp only [beq_eq_false_iff_ne, ne_eq]
    omega
  have hfind : List.findIdx? (fun e => e.1 == c)
      ([((0 : Nat), x), (c, y)] : List (Nat × Nat)) = some 1 := by
    simp [List.findIdx?_cons, h0]
  simp only [brokerStep, NotificationSet.remove, hfind]
  rfl

lemma idReuseCycles_run (x : Nat) :
    ∀ (n c : Nat), 1 ≤ c → c < 2 ^ 32 → c + n ≤ 2 ^ 32 →
      (brokerRun (⟨[(0, x)], c, 2⟩ : NotificationSet Nat)
          (idReuseCycles c n)).1 =
        ⟨[(0, x)], (c + n) % 2 ^ 32, 2⟩ := by
  intro n
  induction n with
  | zero =>
      intro c _ h2 _
      rw [Nat.add_zero, Nat.mod_eq_of_lt h2]
      rfl
  | succ n ih =>
      intro c h1 h2 h3
      rw [show idReuseCycles c (n + 1) =
            .notifyOp 1 :: .removeOp c :: idReuseCycles (c + 1) n from rfl,
          brokerRun_fst_cons, brokerRun_fst_cons, brokerStep_notify_one x c]
      show (brokerRun (brokerStep
          (⟨[(0, x), (c, 1)], (c + 1) % 2 ^ 32, 2⟩ : NotificationSet Nat)
          (.removeOp c)).1 (idReuseCycles (c + 1) n)).1 = _
      rw [brokerStep_remove_pair x 1 c ((c + 1) % 2 ^ 32) h1]
      show (brokerRun
          (⟨[(0, x)], (c + 1) % 2 ^ 32, 2⟩ : NotificationSet Nat)
          (idReuseCycles (c + 1) n)).1 = _
      by_cases hwrap : c + 1 < 2 ^ 32
      · rw [Nat.mod_eq_of_lt hwrap,
            ih (c + 1) (by omega) hwrap (by omega),
            show (c + 1 + n) % 2 ^ 32 = (c + (n + 1)) % 2 ^ 32 from by omega]
      · have hn : n = 0 := by omega
        subst hn
        rw [show idReuseCycles (c + 1) 0 = [] from rfl]
        show (⟨[(0, x)], (c + 1) % 2 ^ 32, 2⟩ : NotificationSet Nat) = _
        rw [show (c + 1) % 2 ^ 32 = (c + (0 + 1)) % 2 ^ 32 from by omega]

/-- C9, the wrap refutes the unbounded claim: from a fresh two-slot
broker, one notify (taking id 0 and keeping its entry live), `2 ^ 32 - 1`
notify/remove round trips and one more notify drive the `u32` id counter
through its wrap, and the final notify reissues id 0 — two live entries
then carry the same id, and the reissued id is not greater than the
earlier ones. -/
theorem C9_id_reuse_at_wrap :
    (brokerRun (NotificationSet.new Nat 2) idReuseOps).1 =
      ⟨[(0, 0), (0, 2)], 1, 2⟩ := by
  have hstep : (brokerStep (NotificationSet.new Nat 2) (.notifyOp 0)).1 =
      ⟨[(0, 0)], 1, 2⟩ := by decide
  rw [show idReuseOps =
        .notifyOp 0 :: (idReuseCycles 1 (2 ^ 32 - 1) ++ [.notifyOp 2]) from rfl,
      brokerRun_fst_cons, hstep, brokerRun_fst_append,
      idReuseCycles_run 0 (2 ^ 32 - 1) 1 (by norm_num) (by norm_num)
        (by norm_num),
      show (1 + (2 ^ 32 - 1)) % 2 ^ 32 = 0 from by norm_num]
  decide

/-- Mutating a found entry through `get_mut` leaves it on the broker: it
is still found (with the new payload) and `check` stays true. -/
lemma modifyData_getData {T : Type} (id : Nat) (f : T → T) :
    ∀ (l : List (Nat × T)) (c cap : Nat) (x : T),
      NotificationSet.getData ⟨l, c, cap⟩ id = some x →
      NotificationSet.getData (NotificationSet.modifyData ⟨l, c, cap⟩ id f) id =
          some (f x) ∧
        NotificationSet.check (NotificationSet.modifyData ⟨l, c, cap⟩ id f) id = true ∧
        (NotificationSet.modifyData ⟨l, c, cap⟩ id f).id_counter = c := by
  intro l
  induction l with
  | nil => intro c cap x h; simp [NotificationSet.getData] at h
  | cons a l ih =>
      intro c cap x h
      by_cases hp : (a.1 == id) = true
      · -- the head is the first match
        have hx : x = a.2 := by
          simp [NotificationSet.getData, List.find?_cons, hp] at h
          exact h.symm
        have hmod : NotificationSet.modifyData ⟨a :: l, c, cap⟩ id f =
            ⟨(a.1, f a.2) :: l, c, cap⟩ := by
          simp [NotificationSet.modifyData, List.findIdx?_cons, hp]
        rw [hmod, hx]
        refine ⟨?_, ?_, rfl⟩
        · simp [NotificationSet.getData, List.find?_cons, hp]
        · simp [NotificationSet.check, hp]
      · -- the head does not match: everything reduces to the tail
        have htail : NotificationSet.getData ⟨l, c, cap⟩ id = some x := by
          simpa [NotificationSet.getData, List.find?_cons, hp] using h
        obtain ⟨ih1, ih2, _⟩ := ih c cap x htail
        have hcons : NotificationSet.modifyData ⟨a :: l, c, cap⟩ id f =
            ⟨a :: (NotificationSet.modifyData ⟨l, c, cap⟩ id f).notifications,
             c, cap⟩ := by
          simp only [NotificationSet.modifyData, List.findIdx?_cons, hp,
            Bool.false_eq_true, if_false, List.findIdx?_succ]
          rcases hfi : l.findIdx? (fun e => e.1 == id) with _ | i
          · simp [hfi]
          · rcases hg : l[i]? with _ | e
            · simp [hfi, hg]
            · simp [hfi, hg, List.set_cons_succ]
        rw [hcons]
        refine ⟨?_, ?_, rfl⟩
        · simpa [NotificationSet.getData, List.find?_cons, hp] using ih1
        · simpa [NotificationSet.check, hp] using ih2

/-- The first `find?` match corresponds to the first `findIdx?` index. -/
lemma find?_findIdx? {α : Type} (p : α → Bool) :
    ∀ (l : List α) (e : α), l.find? p = some e →
      ∃ i, l.findIdx? p = some i ∧ l[i]? = some e := by
  intro l
  induction l with
  | nil => intro e h; simp at h
  | cons a l ih =>
      intro e h
      by_cases hp : p a = true
      · refine ⟨0, ?_, ?_⟩
        · simp [List.findIdx?_cons, hp]
        · simp only [List.find?_cons, hp] at h
          simpa using h
      · simp only [List.find?_cons, hp] at h
        obtain ⟨i, hfi, hg⟩ := ih e h
        refine ⟨i + 1, ?_, by simpa using hg⟩
        simp [List.findIdx?_cons, hp, List.findIdx?_succ, hfi]

/-- Removing a found entry returns its payload and leaves no live entry
with that id behind (on a duplicate-free broker). -/
lemma remove_of_getData {T : Type} (s : NotificationSet T) (id : Nat) (x : T)
    (h : s.getData id = some x) (hnd : (s.notifications.map Prod.fst).Nodup) :
    ∃ s', s.remove id = some (x, s') ∧ s'.check id = false ∧
      s'.id_counter = s.id_counter := by
  obtain ⟨e, hfind, hx⟩ : ∃ e, s.notifications.find? (fun a => a.1 == id) = some e ∧
      e.2 = x := by
    unfold NotificationSet.getData at h
    rcases hf : s.notifications.find? (fun a => a.1 == id) with _ | e
    · rw [hf] at h; simp at h
    · rw [hf] at h
      exact ⟨e, hf, by simpa using h⟩
  have hpe : e.1 = id := by
    have := List.find?_some hfind
    simpa using this
  obtain ⟨i, hfi, hg⟩ := find?_findIdx? _ s.notifications e hfind
  have hi : i < s.notifications.length := by
    rw [List.getElem?_eq_some] at hg
    exact hg.1
  have hne : s.notifications ≠ [] := by
    intro hnil
    rw [hnil] at hi
    simp at hi
  obtain ⟨last, hlast⟩ : ∃ a, s.notifications.getLast? = some a := by
    rcases hl : s.notifications.getLast? with _ | a
    · exact absurd (List.getLast?_eq_none_iff.mp hl) hne
    · exact ⟨a, rfl⟩
  refine ⟨⟨(((s.notifications.set i last).set (s.notifications.length - 1) e).dropLast),
    s.id_counter, s.capacity⟩, ?_, ?_, rfl⟩
  · unfold NotificationSet.remove
    simp only [hfi]
    simp only [hg]
    simp only [hlast]
    rw [hx]
  · simp only [NotificationSet.check, List.any_eq_false]
    intro a ha
    have := swapRemove_check_false id s.notifications i hi e last hg hlast hnd hpe a ha
    simpa using this

/-- C6: when a Hauler accepts a broker entry (`brain.rs:257-271`, the
accept block of the seeding loop, here `acceptHaul`) whose amount
exceeds the agent's per-trip cap, the entry stays on the broker with its
amount reduced by the cap and remains claimable (`check` still true),
while the agent pushes a `Haul` goal for exactly the capped amount; an
entry within the cap is removed whole from the broker (no longer
claimable) and pushed as the goal unchanged. -/
theorem C6_haul_split_or_claim (broker : NotificationSet HaulDescription)
    (stack : List Goal) (cap notif_id : Nat) (description : HaulDescription)
    (hfound : broker.getData notif_id = some description)
    (hnodup : (broker.notifications.map Prod.fst).Nodup)
    (hroom : stack.length < MAX_GOALS) :
    (cap < description.amount →
      ∃ broker',
        acceptHaul broker stack cap notif_id description =
          .ok (broker',
            stack ++ [.haul ⟨description.resource, cap, description.destination⟩]) ∧
        broker'.getData notif_id =
          some ⟨description.resource, description.amount - cap,
            description.destination⟩ ∧
        broker'.check notif_id = true) ∧
    (description.amount ≤ cap →
      ∃ broker',
        acceptHaul broker stack cap notif_id description =
          .ok (broker', stack ++ [.haul description]) ∧
        broker'.check notif_id = false) := by
  constructor
  · intro hlt
    have hm := modifyData_getData notif_id
      (fun d => ⟨d.resource, d.amount - cap, d.destination⟩)
      broker.notifications broker.id_counter broker.capacity description hfound
    refine ⟨broker.modifyData notif_id
      (fun d => ⟨d.resource, d.amount - cap, d.destination⟩), ?_, hm.1, hm.2.1⟩
    simp [acceptHaul, hlt, pushGoalPanic, Nat.ne_of_lt hroom]
  · intro hle
    obtain ⟨s', hrem, hcheck, _⟩ := remove_of_getData broker notif_id description
      hfound hnodup
    refine ⟨s', ?_, hcheck⟩
    have hnotlt : ¬ cap < description.amount := by omega
    simp [acceptHaul, hnotlt, hrem, pushGoalPanic, Nat.ne_of_lt hroom]

/-- The spec's concrete split scenario: a 5-unit request against a
2-unit per-trip cap. -/
def c6Entry : HaulDescription :=
  ⟨ResourceVariant.MAGMA, 5, (JobStationVariant.ENERGY_GENERATOR, ⟨3, 0⟩)⟩

/-- A broker holding only the 5-unit request. -/
def c6Broker : NotificationSet HaulDescription := ⟨[(0, c6Entry)], 1, 128⟩

/-- Witness for C6: the 5-unit request with cap 2 splits into a 2-unit
`Haul` goal while the broker entry is reduced to 3 units and stays
claimable. -/
theorem C6_haul_split_or_claim_witness :
    c6Broker.getData 0 = some c6Entry ∧ (2 : Nat) < 5 ∧
      ∃ broker',
        acceptHaul c6Broker [] 2 0 c6Entry =
          .ok (broker',
            [] ++ [.haul ⟨c6Entry.resource, 2, c6Entry.destination⟩]) ∧
        broker'.getData 0 =
          some ⟨c6Entry.resource, c6Entry.amount - 2, c6Entry.destination⟩ ∧
        broker'.check 0 = true :=
  ⟨rfl, by decide,
    (C6_haul_split_or_claim c6Broker [] 2 0 c6Entry rfl (by decide) (by decide)).1
      (by decide)⟩

lemma u64ToI16_small (n : Nat) (h : n < 2 ^ 15) : u64ToI16 n = (n : Int) := by
  unfold u64ToI16 wrapI16
  have hmod : n % 2 ^ 16 = n := Nat.mod_eq_of_lt (by omega)
  rw [hmod]
  omega

/-- C5 (code bug): the Relax walk target is a pure function of the hash
of (agent id, position, tick) — but it is anchored at the origin, not at
the stored bounding box: `brain.rs:700-702` reduces the hash modulo each
side length without adding the box's minimum corner.  For the stored box
`((15,15),(25,25))` the target lies in `[0,10) × [0,10)` for every hash
value, so it is never inside the box; at the concrete inputs
(agent 0 at (20,20) on tick 5) the target is `(8, 8)`. -/
theorem C5_relax_target_outside_box :
    (∀ rand : Nat,
      0 ≤ (relaxWalkTarget rand (⟨15, 15⟩, ⟨25, 25⟩)).x ∧
        (relaxWalkTarget rand (⟨15, 15⟩, ⟨25, 25⟩)).x < 10 ∧
        0 ≤ (relaxWalkTarget rand (⟨15, 15⟩, ⟨25, 25⟩)).y ∧
        (relaxWalkTarget rand (⟨15, 15⟩, ⟨25, 25⟩)).y < 10) ∧
      relaxWalkTarget (seahash (hashedBytesOf 0 ⟨20, 20⟩ 5))
        (⟨15, 15⟩, ⟨25, 25⟩) = ⟨8, 8⟩ := by
  constructor
  · intro rand
    have h10 : (rand >>> 32) % 10 < 10 := Nat.mod_lt _ (by norm_num)
    have heq : relaxWalkTarget rand (⟨15, 15⟩, ⟨25, 25⟩) =
        ⟨u64ToI16 ((rand >>> 32) % 10), u64ToI16 ((rand >>> 32) % 10)⟩ := by
      norm_num [relaxWalkTarget]
    rw [heq]
    dsimp only
    rw [u64ToI16_small _ (by omega)]
    refine ⟨by omega, by omega, by omega, by omega⟩
  · decide

/-- C10: when the agent's oxygen (as looked up from the component store)
is exactly zero, `update_goals` clears the goal stack and returns
immediately: the scene, the broker and every other `Brain` field
(occupation, per-trip cap, wait ticks, idle-tick counter, has-relaxed
flag) are left unchanged. -/
theorem C10_zero_oxygen_resets (current_brain_index : Nat)
    (current_position : TilePosition) (current_tick : Nat) (brain : Brain)
    (scene : Scene) (haul_notifications : NotificationSet HaulDescription)
    (walls : BitGrid) (budget : Nat)
    (h : (findStatus scene current_brain_index).oxygen = 0) :
    update_goals current_brain_index current_position current_tick brain scene
        haul_notifications walls budget =
      .ok (⟨[], brain.job, brain.max_haul_amount, brain.wait_ticks,
        brain.ticks_without_goal, brain.has_relaxed⟩, scene, haul_notifications) := by
  unfold update_goals
  simp [h, pure, Except.pure]

/-- A one-character scene whose agent has zero oxygen (and a nonempty
goal stack about to be discarded). -/
def c10Scene : Scene :=
  ⟨[⟨⟨0, 0, 3, 24, 3, 3, 0⟩, ⟨0, 0⟩, Stockpile.zeroed⟩], [], [], 2000⟩

/-- A brain mid-task: two stacked goals, idle counter 7, has-relaxed set. -/
def c10Brain : Brain :=
  ⟨[.refillOxygen, .work none JobStationVariant.OXYGEN_GENERATOR], .hauler, 2, 30,
    7, true⟩

/-- An open 5×1 walls grid. -/
def c10Walls : BitGrid := ⟨[0], 5, 1, 1⟩

/-- A broker with one outstanding entry, untouched by the zero-oxygen
early return. -/
def c10Broker : NotificationSet HaulDescription := ⟨[(0, c6Entry)], 1, 128⟩

/-- Witness for C10 at a concrete zero-oxygen state. -/
theorem C10_zero_oxygen_resets_witness :
    (findStatus c10Scene 0).oxygen = 0 ∧
      update_goals 0 ⟨0, 0⟩ 5 c10Brain c10Scene c10Broker c10Walls 1000000 =
        .ok (⟨[], .hauler, 2, 30, 7, true⟩, c10Scene, c10Broker) :=
  ⟨rfl, C10_zero_oxygen_resets 0 ⟨0, 0⟩ 5 c10Brain c10Scene c10Broker c10Walls
    1000000 rfl⟩

/-! ## Concrete path-finder and planner scenarios (claims C1–C4) -/

/-- Build a `BitGrid` of the given size with the listed bits set (the
budget is exactly the grid's word count, so allocation succeeds). -/
def mkBitGrid (width height : Nat) (bits : List TilePosition) : BitGrid :=
  bits.foldl
    (fun g p =>
      match g.set p true with
      | .ok g' => g'
      | .error _ => g)
    (match BitGrid.new (((width + 127) / 128) * height) width height with
     | some r => r.1
     | none => ⟨[], width, height, (width + 127) / 128⟩)

/-- C1 (code bug): `find_path_to_any` as written in
`src/game-lib/src/pathfinding.rs` counts a destination hit only when the
cell is also walkable (line 53) — there is no `allow_wall_destination`
parameter.  On a 2×1 grid with the destination mask at the blocked cell
(1,0), adjacent to the origin, the search returns `none`; with the same
mask and no wall it returns the one-step path Right.  Under the claim
(flag true) the blocked destination would terminate the search
successfully. -/
theorem C1_blocked_destination_never_hit :
    find_path_to_any ⟨0, 0⟩ (mkBitGrid 2 1 [⟨1, 0⟩]) (mkBitGrid 2 1 [⟨1, 0⟩])
        1000 100 = .ok none ∧
      find_path_to_any ⟨0, 0⟩ (mkBitGrid 2 1 [⟨1, 0⟩]) (mkBitGrid 2 1 [])
        1000 100 = .ok (some ⟨[3], 1⟩) := by
  exact ⟨by decide, by decide⟩

/-- C4 (code bug): of the three claimed `none` causes, unreachability and
scratch-allocation failure do return `none`, but an origin out of the
destination mask's bounds panics (the flattened `Grid` index or the
`assert!`s of `BitGrid::get` at `grid.rs:131-142`), it does not return
`none`: on a 3×1 grid, origin (3,0) hits an out-of-bounds scratch read. -/
theorem C4_out_of_bounds_origin_panics :
    find_path_to_any ⟨0, 0⟩ (mkBitGrid 3 1 [⟨2, 0⟩]) (mkBitGrid 3 1 [⟨1, 0⟩])
        1000 100 = .ok none ∧
      find_path_to_any ⟨0, 0⟩ (mkBitGrid 3 1 [⟨1, 0⟩]) (mkBitGrid 3 1 [])
        0 100 = .ok none ∧
      find_path_to_any ⟨3, 0⟩ (mkBitGrid 3 1 [⟨1, 0⟩]) (mkBitGrid 3 1 [])
        1000 100 = .error .panicked := by
  exact ⟨by decide, by decide, by decide⟩

/-- A healthy character at the origin (full oxygen and morale). -/
def okCharStatus : CharacterStatus := ⟨0, 24, 3, 24, 3, 3, 0⟩

/-- A scene with one healthy character at (0,0) and a pile of 10
non-reserved magma at (4,0). -/
def haulerScene : Scene :=
  ⟨[⟨okCharStatus, ⟨0, 0⟩, Stockpile.zeroed⟩], [],
   [⟨⟨4, 0⟩, Stockpile.zeroed.with_resource ResourceVariant.MAGMA 10 false⟩], 2000⟩

/-- A haul request for `amt` magma to an energy generator at `(x, 0)`. -/
def haulEntry (x : Int) (amt : Nat) : HaulDescription :=
  ⟨ResourceVariant.MAGMA, amt, (JobStationVariant.ENERGY_GENERATOR, ⟨x, 0⟩)⟩

/-- A Hauler brain with an empty goal stack (fresh from `Brain::new` with
the occupation set to Hauler). -/
def haulerBrain : Brain := ⟨[], .hauler, 2, 30, 0, false⟩

/-- An open 5×1 walls grid. -/
def open5Walls : BitGrid := mkBitGrid 5 1 []

/-- Nine claimable single-unit haul requests (the broker holds up to 128
entries, `lib.rs:283`). -/
def nineEntryBroker : NotificationSet HaulDescription :=
  ⟨(List.range 9).map (fun i => (i, haulEntry 1 1)), 9, 128⟩

/-- C2 (code bug): the Hauler goal seeding accepts every claimable broker
entry (no `break`, `brain.rs:231-273`) and pushes each accepted `Haul`
goal with plain `ArrayVec::push` (`brain.rs:261, 270`), which panics when
the stack is full.  With nine claimable entries and the goal stack
(capacity `MAX_GOALS = 8`) initially empty, the ninth push overflows and
`update_goals` panics instead of resetting the stack: only the
instrumental-subgoal site (`brain.rs:770-772`) implements
try-push-then-clear. -/
theorem C2_seeding_overflow_panics :
    update_goals 0 ⟨0, 0⟩ 5 haulerBrain haulerScene nineEntryBroker open5Walls
      1000000 = .error .panicked := by
  decide

/-- Two claimable haul requests at distances 1 and 2. -/
def twoEntryBroker : NotificationSet HaulDescription :=
  ⟨[(0, haulEntry 1 1), (1, haulEntry 2 2)], 2, 128⟩

/-- The number of `Haul` goals on a goal stack. -/
def countHaulGoals (stack : List Goal) : Nat :=
  stack.countP fun g =>
    match g with
    | .haul _ => true
    | _ => false

/-- C3 (code bug): with two broker entries that both pass the two
reachability probes, one seeding pass of `update_goals` pushes **two**
`Haul` goals (the loop at `brain.rs:231-273` has no `break` after an
accept), not just one for the nearest candidate as claimed; the source's
own comment at `brain.rs:213` says "Find the closest haul job (by
destination) and take it". -/
theorem C3_seeding_accepts_both :
    (update_goals 0 ⟨0, 0⟩ 5 haulerBrain haulerScene twoEntryBroker open5Walls
        1000000).map (fun r => countHaulGoals r.1.goal_stack) = .ok 2 := by
  decide

end Ld57
